import Mathlib

set_option maxRecDepth 4000

/-!
Verification of the color core (`src/mcp/src/color.ts`).

The JavaScript number arithmetic of the source is embedded into exact
arithmetic: `ℚ` for the intermediate real computations and `ℤ` for the
integer channel values.  `Math.round` is `jsRound` (round half toward +∞),
the JavaScript `%` on nonnegative operands is `jsMod`, and `parseInt`
returning `NaN` is modelled by `Option`.  WCAG luminance, which uses the
exponent 2.4, is embedded over `ℝ` with `Real.rpow`.
-/

namespace ColorsHelp

/-- JS `Math.round`: round half toward positive infinity. -/
def jsRound (q : ℚ) : ℤ := ⌊q + 1/2⌋

/-- JS truncation toward zero (`Math.trunc`), used by the `%` operator. -/
def jsTrunc (q : ℚ) : ℤ := if 0 ≤ q then ⌊q⌋ else -⌊-q⌋

/-- JS `%` (fmod): `x - y * trunc (x / y)`. -/
def jsMod (x y : ℚ) : ℚ := x - y * jsTrunc (x / y)

/-- `interface RGBColor` of the source; channels are JS numbers, embedded
as integers (every value the source stores in them is an integer). -/
structure RGBColor where
  r : ℤ
  g : ℤ
  b : ℤ
deriving DecidableEq

/-- `interface HSLColor` of the source. -/
structure HSLColor where
  h : ℤ
  s : ℤ
  l : ℤ
deriving DecidableEq

/-- `hslToRgb` of the source, with the final `Math.round` on each channel. -/
def hslToRgb (hsl : HSLColor) : RGBColor :=
  let h : ℚ := hsl.h
  let sn : ℚ := (hsl.s : ℚ) / 100
  let ln : ℚ := (hsl.l : ℚ) / 100
  let c : ℚ := (1 - |2 * ln - 1|) * sn
  let x : ℚ := c * (1 - |jsMod (h / 60) 2 - 1|)
  let m : ℚ := ln - c / 2
  let rgb1 : ℚ × ℚ × ℚ :=
    if h < 60 then (c, x, 0)
    else if h < 120 then (x, c, 0)
    else if h < 180 then (0, c, x)
    else if h < 240 then (0, x, c)
    else if h < 300 then (x, 0, c)
    else (c, 0, x)
  ⟨jsRound ((rgb1.1 + m) * 255), jsRound ((rgb1.2.1 + m) * 255),
    jsRound ((rgb1.2.2 + m) * 255)⟩

/-- `rgbToHsl` of the source. -/
def rgbToHsl (rgb : RGBColor) : HSLColor :=
  let rn : ℚ := (rgb.r : ℚ) / 255
  let gn : ℚ := (rgb.g : ℚ) / 255
  let bn : ℚ := (rgb.b : ℚ) / 255
  let mx : ℚ := max rn (max gn bn)
  let mn : ℚ := min rn (min gn bn)
  let d : ℚ := mx - mn
  let l : ℚ := (mx + mn) / 2
  if d = 0 then ⟨0, 0, jsRound (l * 100)⟩
  else
    let s : ℚ := if l > 1/2 then d / (2 - mx - mn) else d / (mx + mn)
    let h : ℚ :=
      if mx = rn then ((gn - bn) / d + (if gn < bn then 6 else 0)) * 60
      else if mx = gn then ((bn - rn) / d + 2) * 60
      else ((rn - gn) / d + 4) * 60
    ⟨jsRound h, jsRound (s * 100), jsRound (l * 100)⟩

/-- Lowercase hex digit for a value below 16, as JS `Number.toString(16)`
produces. -/
def hexChar (n : ℕ) : Char :=
  if n < 10 then Char.ofNat (48 + n) else Char.ofNat (87 + n)

/-- Digit-accumulating loop of `natToHex`; the fuel argument only bounds
the recursion depth and never runs out for `fuel ≥ n + 1`. -/
def natToHexGo : ℕ → ℕ → List Char → List Char
  | 0, _, acc => acc
  | fuel + 1, n, acc =>
    if n < 16 then hexChar n :: acc
    else natToHexGo fuel (n / 16) (hexChar (n % 16) :: acc)

/-- Base-16 rendering of a natural number, lowercase (JS `n.toString(16)`
for nonnegative integers). -/
def natToHex (n : ℕ) : List Char :=
  natToHexGo (n + 1) n []

/-- JS `String.prototype.padStart`. -/
def padStart (len : ℕ) (c : Char) (s : List Char) : List Char :=
  List.replicate (len - s.length) c ++ s

/-- The `toHex` helper inside `rgbToHex`: `n.toString(16).padStart(2, '0')`.
JS renders a negative number with a leading minus sign. -/
def toHex (n : ℤ) : List Char :=
  padStart 2 '0' (if n < 0 then '-' :: natToHex (-n).toNat else natToHex n.toNat)

/-- `rgbToHex` of the source. -/
def rgbToHex (rgb : RGBColor) : String :=
  String.mk ('#' :: (toHex rgb.r ++ toHex rgb.g ++ toHex rgb.b))

/-- Value of a hex digit (either case), as JS `parseInt(_, 16)` accepts. -/
def hexDigitVal? (c : Char) : Option ℕ :=
  if '0' ≤ c ∧ c ≤ '9' then some (c.toNat - 48)
  else if 'a' ≤ c ∧ c ≤ 'f' then some (c.toNat - 87)
  else if 'A' ≤ c ∧ c ≤ 'F' then some (c.toNat - 55)
  else none

/-- JS `parseInt(s, 16)`: value of the longest hex-digit prefix, `none`
standing for `NaN` when no digit leads. -/
def parseIntHex? (cs : List Char) : Option ℕ :=
  let ds := cs.takeWhile (fun c => (hexDigitVal? c).isSome)
  if ds = [] then none
  else some (ds.foldl (fun acc c => 16 * acc + ((hexDigitVal? c).getD 0)) 0)

/-- Remove the first occurrence of a character (JS `replace('#', '')`
replaces only the first match of a string pattern). -/
def removeFirst (c : Char) : List Char → List Char
  | [] => []
  | x :: xs => if x = c then xs else x :: removeFirst c xs

/-- `hexToRgb` of the source; `none` models channels poisoned by `NaN`
when a slice fails to parse. -/
def hexToRgb (hex : String) : Option RGBColor :=
  let clean := removeFirst '#' hex.toList
  match parseIntHex? (clean.take 2), parseIntHex? ((clean.drop 2).take 2),
      parseIntHex? ((clean.drop 4).take 2) with
  | some r, some g, some b => some ⟨(r : ℤ), (g : ℤ), (b : ℤ)⟩
  | _, _, _ => none

/-- `hslToHex` of the source. -/
def hslToHex (hsl : HSLColor) : String :=
  rgbToHex (hslToRgb hsl)

/-- `hexToHsl` of the source. -/
def hexToHsl (hex : String) : Option HSLColor :=
  (hexToRgb hex).map rgbToHsl

/-- The character class `\s` of the regexes (ASCII whitespace). -/
def isWs (c : Char) : Bool := c.isWhitespace

/-- JS `String.prototype.trim`: strip leading and trailing whitespace. -/
def trimList (cs : List Char) : List Char :=
  ((cs.dropWhile isWs).reverse.dropWhile isWs).reverse

/-- The character class `[0-9a-fA-F]` of the hex regex. -/
def isHexDigitChar (c : Char) : Bool :=
  ('0' ≤ c && c ≤ '9') || ('a' ≤ c && c ≤ 'f') || ('A' ≤ c && c ≤ 'F')

/-- The regex `^#?([0-9a-fA-F]{3}|[0-9a-fA-F]{6})$`: returns the captured
digit group. -/
def hexBody (cs : List Char) : List Char :=
  match cs with
  | '#' :: rest => rest
  | _ => cs

def hexMatch? (cs : List Char) : Option (List Char) :=
  if ((hexBody cs).length = 3 ∨ (hexBody cs).length = 6) ∧
      (hexBody cs).all isHexDigitChar then some (hexBody cs)
  else none

/-- 3-digit shorthand doubling (`hex[0]+hex[0]+hex[1]+hex[1]+hex[2]+hex[2]`). -/
def expandHex : List Char → List Char
  | [c0, c1, c2] => [c0, c0, c1, c1, c2, c2]
  | l => l

/-- Numeric value of a run of decimal digits (JS unary `+` on the capture). -/
def decimalVal (ds : List Char) : ℕ :=
  ds.foldl (fun a c => 10 * a + (c.toNat - 48)) 0

/-- `\d{1,3}` followed by a non-digit: take the maximal digit run, require
its length in `[1,3]`, and return its value with the rest. -/
def digits13? (cs : List Char) : Option (ℕ × List Char) :=
  let ds := cs.takeWhile Char.isDigit
  if 1 ≤ ds.length ∧ ds.length ≤ 3 then
    some (decimalVal ds, cs.dropWhile Char.isDigit)
  else none

/-- Expect one literal character. -/
def expectChar (c : Char) : List Char → Option (List Char)
  | x :: xs => if x = c then some xs else none
  | [] => none

/-- Expect a literal tag, case-insensitively (the regexes carry the `i`
flag). -/
def expectTagCI : List Char → List Char → Option (List Char)
  | [], cs => some cs
  | _ :: _, [] => none
  | t :: ts, x :: xs => if x.toLower = t then expectTagCI ts xs else none

/-- `%?`: consume one optional percent sign. -/
def skipPercent : List Char → List Char
  | x :: xs => if x = '%' then xs else x :: xs
  | [] => []

/-- The regexes `^rgb\(\s*(\d{1,3})\s*,\s*(\d{1,3})\s*,\s*(\d{1,3})\s*\)$/i`
(`optP = false`) and
`^hsl\(\s*(\d{1,3})\s*,\s*(\d{1,3})%?\s*,\s*(\d{1,3})%?\s*\)$/i`
(`optP = true`), returning the three captured numbers. -/
def funcMatch? (tag : List Char) (optP : Bool) (cs : List Char) :
    Option (ℕ × ℕ × ℕ) := do
  let cs ← expectTagCI tag cs
  let cs ← expectChar '(' cs
  let cs := cs.dropWhile isWs
  let (n1, cs) ← digits13? cs
  let cs := cs.dropWhile isWs
  let cs ← expectChar ',' cs
  let cs := cs.dropWhile isWs
  let (n2, cs) ← digits13? cs
  let cs := if optP then skipPercent cs else cs
  let cs := cs.dropWhile isWs
  let cs ← expectChar ',' cs
  let cs := cs.dropWhile isWs
  let (n3, cs) ← digits13? cs
  let cs := if optP then skipPercent cs else cs
  let cs := cs.dropWhile isWs
  let cs ← expectChar ')' cs
  if cs = [] then some (n1, n2, n3) else none

/-- The error message thrown by `parseColor`. -/
def parseErrorMsg (input : String) : String :=
  "Cannot parse \"" ++ input ++
    "\". Accepted formats: #6C5CE7, 6C5CE7, #6CE, rgb(108,92,231), hsl(249,75%,63%)"

/-- `parseColor` of the source; the thrown `Error` is the `Except.error`
case. -/
def parseColor (input : String) : Except String String :=
  let s := trimList input.toList
  match hexMatch? s with
  | some body => .ok (String.mk ('#' :: (expandHex body).map Char.toLower))
  | none =>
    match funcMatch? ['r', 'g', 'b'] false s with
    | some (r, g, b) =>
      .ok (rgbToHex ⟨min 255 (r : ℤ), min 255 (g : ℤ), min 255 (b : ℤ)⟩)
    | none =>
      match funcMatch? ['h', 's', 'l'] true s with
      | some (h, sv, l) =>
        .ok (hslToHex ⟨min 360 (h : ℤ), min 100 (sv : ℤ), min 100 (l : ℤ)⟩)
      | none => .error (parseErrorMsg input)

instance : DecidableEq (Except String String) := fun a b =>
  match a, b with
  | .ok x, .ok y => decidable_of_iff (x = y) (by simp)
  | .error x, .error y => decidable_of_iff (x = y) (by simp)
  | .ok _, .error _ => isFalse (by simp)
  | .error _, .ok _ => isFalse (by simp)

/-- `relativeLuminance`'s `linearize` helper, embedded over `ℝ`
(`Math.pow(_, 2.4)` is `Real.rpow`). -/
noncomputable def linearize (c : ℤ) : ℝ :=
  let srgb : ℝ := (c : ℝ) / 255
  if srgb ≤ 0.03928 then srgb / 12.92 else ((srgb + 0.055) / 1.055) ^ (2.4 : ℝ)

/-- `relativeLuminance` of the source. -/
noncomputable def relativeLuminance (rgb : RGBColor) : ℝ :=
  0.2126 * linearize rgb.r + 0.7152 * linearize rgb.g + 0.0722 * linearize rgb.b

/-- `contrastRatio` of the source. -/
noncomputable def contrastRatio (c1 c2 : RGBColor) : ℝ :=
  let la := relativeLuminance c1
  let lb := relativeLuminance c2
  let lighter := max la lb
  let darker := min la lb
  (lighter + 0.05) / (darker + 0.05)

/-- `textColorForBackground` of the source. -/
noncomputable def textColorForBackground (hex : String) : Option String :=
  (hexToRgb hex).map fun rgb =>
    let white : RGBColor := ⟨255, 255, 255⟩
    let black : RGBColor := ⟨0, 0, 0⟩
    if contrastRatio rgb white > contrastRatio rgb black then "#ffffff"
    else "#000000"

/-- `GOLDEN_RATIO_CONJUGATE` of the source (the decimal literal, exactly). -/
def GOLDEN_RATIO_CONJUGATE : ℚ := 0.618033988749895

/-- JS truthiness of `locked[key]`: present and not the empty string. -/
def jsTruthy : Option String → Bool
  | none => false
  | some v => v ≠ ""

/-- Loop body of `generatePalette`'s `Array.from`: `n` entries remain,
`i` is the position, `hue` the cursor, and `k` indexes the stream `rand`
of `Math.random()` draws. -/
def generateGo (locked : List (String × String)) (rand : ℕ → ℚ) :
    ℕ → ℕ → ℚ → ℕ → List String
  | 0, _, _, _ => []
  | n + 1, i, hue, k =>
    let v? := List.lookup (toString i) locked
    if jsTruthy v? then
      v?.getD "" :: generateGo locked rand n (i + 1) hue k
    else
      let hue' := jsMod (hue + 360 * GOLDEN_RATIO_CONJUGATE) 360
      let s := jsRound (55 + rand k * 30)
      let l := jsRound (45 + rand (k + 1) * 25)
      hslToHex ⟨jsRound hue', s, l⟩ :: generateGo locked rand n (i + 1) hue' (k + 2)

/-- `generatePalette` of the source.  The lock map is an association list
(a JS record has distinct keys) and the ambient `Math.random()` draws are
the explicit stream `rand`: draw 0 seeds the hue, then each unlocked
position consumes two draws. -/
def generatePalette (count : ℕ) (locked : List (String × String))
    (rand : ℕ → ℚ) : List String :=
  generateGo locked rand count 0 (rand 0 * 360) 1

/-- A lowercase hex digit, `[0-9a-f]`. -/
def isLowerHexDigit (c : Char) : Bool :=
  ('0' ≤ c && c ≤ '9') || ('a' ≤ c && c ≤ 'f')

/-- The spec's CanonicalHex shape: `#` followed by exactly six lowercase
hex digits. -/
def isCanonicalHex (s : String) : Bool :=
  match s.toList with
  | '#' :: rest => rest.length == 6 && rest.all isLowerHexDigit
  | _ => false

/-! ### Declarative grammars of the three accepted input forms

These restate the claim's grammars directly, independently of the matcher
functions above; the parser-correctness lemmas connect the two. -/

/-- A possibly empty run of whitespace (`\s*`). -/
def IsWsRun (w : List Char) : Prop := ∀ c ∈ w, isWs c = true

/-- One to three decimal digits (`\d{1,3}`). -/
def IsDigits13 (d : List Char) : Prop :=
  (1 ≤ d.length ∧ d.length ≤ 3) ∧ ∀ c ∈ d, c.isDigit = true

/-- The capture group of the hex regex: exactly 3 or 6 hex digits. -/
def IsHexBody (body : List Char) : Prop :=
  (body.length = 3 ∨ body.length = 6) ∧ ∀ c ∈ body, isHexDigitChar c = true

/-- `^#?([0-9a-fA-F]{3}|[0-9a-fA-F]{6})$` as a grammar. -/
def MatchesHexGrammar (cs : List Char) : Prop :=
  ∃ body, (cs = '#' :: body ∨ cs = body) ∧ IsHexBody body

/-- An optional percent sign: empty, or `%` when `optP` allows it. -/
def IsOptPercent (optP : Bool) (p : List Char) : Prop :=
  p = [] ∨ (optP = true ∧ p = ['%'])

/-- The `tag(n1, n2[%], n3[%])` grammar shared by the `rgb` and `hsl`
regexes (case-insensitive tag, `%` allowed only when `optP`), together
with the numeric values of the three captures. -/
def MatchesFuncGrammar (tag : List Char) (optP : Bool) (cs : List Char)
    (v1 v2 v3 : ℕ) : Prop :=
  ∃ t w0 d1 w1 w2 d2 p2 w3 w4 d3 p3 w5,
    cs = t ++ '(' :: (w0 ++ d1 ++ w1 ++ ',' ::
      (w2 ++ d2 ++ p2 ++ w3 ++ ',' :: (w4 ++ d3 ++ p3 ++ w5 ++ [')']))) ∧
    t.map Char.toLower = tag ∧
    IsWsRun w0 ∧ IsDigits13 d1 ∧ IsWsRun w1 ∧
    IsWsRun w2 ∧ IsDigits13 d2 ∧ IsOptPercent optP p2 ∧ IsWsRun w3 ∧
    IsWsRun w4 ∧ IsDigits13 d3 ∧ IsOptPercent optP p3 ∧ IsWsRun w5 ∧
    decimalVal d1 = v1 ∧ decimalVal d2 = v2 ∧ decimalVal d3 = v3

/-! ### Closed forms used in the round-trip analysis

`wR`, `wG`, `wB` are the per-channel hue weights of the HSL→RGB formula:
on `[0, 360]` the branchy sector selection of `hslToRgb` computes exactly
`ln + c * (w - 1/2)` per channel.  `exactH`, `exactS`, `exactL` are the
unrounded values that `rgbToHsl` rounds. -/

/-- Clamp into `[0,1]`. -/
def clamp01 (q : ℚ) : ℚ := max 0 (min 1 q)

/-- Red-channel hue weight. -/
def wR (h : ℚ) : ℚ := clamp01 (|h / 60 - 3| - 1)

/-- Green-channel hue weight. -/
def wG (h : ℚ) : ℚ := clamp01 (2 - |h / 60 - 2|)

/-- Blue-channel hue weight. -/
def wB (h : ℚ) : ℚ := clamp01 (2 - |h / 60 - 4|)

/-- The `ln` of `hslToRgb`. -/
def lnQ (hsl : HSLColor) : ℚ := (hsl.l : ℚ) / 100

/-- The `sn` of `hslToRgb`. -/
def snQ (hsl : HSLColor) : ℚ := (hsl.s : ℚ) / 100

/-- The `c` (chroma) of `hslToRgb`. -/
def cQ (hsl : HSLColor) : ℚ := (1 - |2 * lnQ hsl - 1|) * snQ hsl

/-- `r / 255` as a rational. -/
def rnQ (rgb : RGBColor) : ℚ := (rgb.r : ℚ) / 255

/-- `g / 255` as a rational. -/
def gnQ (rgb : RGBColor) : ℚ := (rgb.g : ℚ) / 255

/-- `b / 255` as a rational. -/
def bnQ (rgb : RGBColor) : ℚ := (rgb.b : ℚ) / 255

/-- The `max` of `rgbToHsl`, unrounded. -/
def exactMax (rgb : RGBColor) : ℚ := max (rnQ rgb) (max (gnQ rgb) (bnQ rgb))

/-- The `min` of `rgbToHsl`, unrounded. -/
def exactMin (rgb : RGBColor) : ℚ := min (rnQ rgb) (min (gnQ rgb) (bnQ rgb))

/-- The `d` of `rgbToHsl`, unrounded. -/
def exactD (rgb : RGBColor) : ℚ := exactMax rgb - exactMin rgb

/-- The lightness of `rgbToHsl` before rounding, on the `[0,1]` scale. -/
def exactL (rgb : RGBColor) : ℚ := (exactMax rgb + exactMin rgb) / 2

/-- The saturation of `rgbToHsl` before rounding, on the `[0,1]` scale. -/
def exactS (rgb : RGBColor) : ℚ :=
  if exactL rgb > 1/2 then exactD rgb / (2 - exactMax rgb - exactMin rgb)
  else exactD rgb / (exactMax rgb + exactMin rgb)

/-- The hue of `rgbToHsl` before rounding, in degrees. -/
def exactH (rgb : RGBColor) : ℚ :=
  if exactMax rgb = rnQ rgb then
    ((gnQ rgb - bnQ rgb) / exactD rgb + (if gnQ rgb < bnQ rgb then 6 else 0)) * 60
  else if exactMax rgb = gnQ rgb then
    ((bnQ rgb - rnQ rgb) / exactD rgb + 2) * 60
  else
    ((rnQ rgb - gnQ rgb) / exactD rgb + 4) * 60

/-! ## Basic facts about rounding -/

theorem jsRound_le (q : ℚ) : (jsRound q : ℚ) ≤ q + 1/2 :=
  Int.floor_le _

theorem lt_jsRound (q : ℚ) : q - 1/2 < (jsRound q : ℚ) := by
  have := Int.lt_floor_add_one (q + 1/2)
  unfold jsRound
  linarith

theorem abs_jsRound_sub (q : ℚ) : |(jsRound q : ℚ) - q| ≤ 1/2 := by
  have h1 := jsRound_le q
  have h2 := lt_jsRound q
  rw [abs_le]
  constructor <;> linarith

theorem jsRound_nonneg {q : ℚ} (h : 0 ≤ q) : 0 ≤ jsRound q := by
  have h1 := lt_jsRound q
  have h2 : (-1 : ℚ) < (jsRound q : ℚ) := by linarith
  have h3 : (-1 : ℤ) < jsRound q := by exact_mod_cast h2
  omega

theorem jsRound_le_of_le {q : ℚ} {n : ℤ} (h : q ≤ n) : jsRound q ≤ n := by
  have h1 := jsRound_le q
  have : (jsRound q : ℚ) < (n : ℚ) + 1 := by linarith
  exact_mod_cast Int.lt_add_one_iff.mp (by exact_mod_cast this)

/-! ## The hex codec (claims C5 and C9) -/

theorem toHex_eq_pair (n : ℤ) (h0 : 0 ≤ n) (h255 : n ≤ 255) :
    toHex n = [hexChar (n.toNat / 16), hexChar (n.toNat % 16)] := by
  have key : ∀ m : Fin 256,
      toHex ((m : ℕ) : ℤ) = [hexChar ((m : ℕ) / 16), hexChar ((m : ℕ) % 16)] := by
    decide
  have hn : n.toNat < 256 := by omega
  have := key ⟨n.toNat, hn⟩
  simpa [Int.toNat_of_nonneg h0] using this

theorem parseIntHex_pair (a b : ℕ) (ha : a < 16) (hb : b < 16) :
    parseIntHex? [hexChar a, hexChar b] = some (16 * a + b) := by
  have key : ∀ a b : Fin 16,
      parseIntHex? [hexChar (a : ℕ), hexChar (b : ℕ)] = some (16 * (a : ℕ) + (b : ℕ)) := by
    decide
  exact key ⟨a, ha⟩ ⟨b, hb⟩

theorem hexToRgb_rgbToHex_id (r g b : ℤ)
    (hr0 : 0 ≤ r) (hr : r ≤ 255) (hg0 : 0 ≤ g) (hg : g ≤ 255)
    (hb0 : 0 ≤ b) (hb : b ≤ 255) :
    hexToRgb (rgbToHex ⟨r, g, b⟩) = some ⟨r, g, b⟩ := by
  have er := toHex_eq_pair r hr0 hr
  have eg := toHex_eq_pair g hg0 hg
  have eb := toHex_eq_pair b hb0 hb
  simp only [rgbToHex, hexToRgb, er, eg, eb]
  simp only [String.toList, List.cons_append, List.nil_append, removeFirst,
    if_pos rfl, List.take, List.drop]
  rw [parseIntHex_pair _ _ (by omega) (by omega),
    parseIntHex_pair _ _ (by omega) (by omega),
    parseIntHex_pair _ _ (by omega) (by omega)]
  have : ∀ n : ℤ, 0 ≤ n → n ≤ 255 →
      ((16 * (n.toNat / 16) + n.toNat % 16 : ℕ) : ℤ) = n := by
    intro n h0 _
    omega
  simp [this r hr0 hr, this g hg0 hg, this b hb0 hb]

/-- **C5.** For every RGB color with integer channels in `[0,255]`,
`hexToRgb (rgbToHex rgb)` reproduces the original triple exactly. -/
theorem hexToRgb_rgbToHex (r g b : ℤ)
    (hr0 : 0 ≤ r) (hr : r ≤ 255) (hg0 : 0 ≤ g) (hg : g ≤ 255)
    (hb0 : 0 ≤ b) (hb : b ≤ 255) :
    hexToRgb (rgbToHex ⟨r, g, b⟩) = some ⟨r, g, b⟩ :=
  hexToRgb_rgbToHex_id r g b hr0 hr hg0 hg hb0 hb

/-- **C5 witness.** -/
theorem hexToRgb_rgbToHex_witness :
    hexToRgb (rgbToHex ⟨108, 92, 231⟩) = some ⟨108, 92, 231⟩ :=
  hexToRgb_rgbToHex 108 92 231 (by decide) (by decide) (by decide) (by decide)
    (by decide) (by decide)

/-! ## The closed form of `hslToRgb` -/

theorem clamp01_of_one_le {q : ℚ} (h : 1 ≤ q) : clamp01 q = 1 := by
  unfold clamp01
  rw [min_eq_left h, max_eq_right (by norm_num)]

theorem clamp01_of_nonpos {q : ℚ} (h : q ≤ 0) : clamp01 q = 0 := by
  unfold clamp01
  rw [min_eq_right (by linarith), max_eq_left h]

theorem clamp01_of_mem {q : ℚ} (h0 : 0 ≤ q) (h1 : q ≤ 1) : clamp01 q = q := by
  unfold clamp01
  rw [min_eq_right h1, max_eq_right h0]

theorem clamp01_nonneg (q : ℚ) : 0 ≤ clamp01 q := le_max_left 0 _

theorem clamp01_le_one (q : ℚ) : clamp01 q ≤ 1 :=
  max_le (by norm_num) (min_le_left 1 q)

theorem jsMod_two_eq (H : ℚ) (k : ℤ) (hk : 0 ≤ k)
    (h1 : (2 * k : ℚ) ≤ H / 60) (h2 : H / 60 < 2 * k + 2) :
    jsMod (H / 60) 2 = H / 60 - 2 * k := by
  have hk' : (0 : ℚ) ≤ (k : ℚ) := by exact_mod_cast hk
  unfold jsMod jsTrunc
  rw [if_pos (by linarith)]
  have hfl : ⌊H / 60 / 2⌋ = k := by
    rw [Int.floor_eq_iff]
    constructor
    · linarith
    · push_cast
      linarith
  rw [hfl]

theorem jsMod60_sector01 {H : ℚ} (h1 : 0 ≤ H) (h2 : H < 120) :
    jsMod (H / 60) 2 = H / 60 := by
  have := jsMod_two_eq H 0 le_rfl (by push_cast; linarith) (by push_cast; linarith)
  simpa using this

theorem jsMod60_sector23 {H : ℚ} (h1 : 120 ≤ H) (h2 : H < 240) :
    jsMod (H / 60) 2 = H / 60 - 2 := by
  have := jsMod_two_eq H 1 (by norm_num) (by push_cast; linarith)
    (by push_cast; linarith)
  push_cast at this
  linarith [this]

theorem jsMod60_sector45 {H : ℚ} (h1 : 240 ≤ H) (h2 : H < 360) :
    jsMod (H / 60) 2 = H / 60 - 4 := by
  have := jsMod_two_eq H 2 (by norm_num) (by push_cast; linarith)
    (by push_cast; linarith)
  push_cast at this
  linarith [this]

theorem jsMod60_at360 : jsMod ((360 : ℚ) / 60) 2 = 0 := by
  have := jsMod_two_eq 360 3 (by norm_num) (by norm_num) (by norm_num)
  push_cast at this
  linarith [this]

/-- On `[0, 360]`, the six-sector selection of `hslToRgb` computes
`ln + c * (w - 1/2)` in each channel, with the `wR`/`wG`/`wB` weights. -/
theorem hslToRgb_closedForm (hsl : HSLColor) (h0 : 0 ≤ hsl.h)
    (h360 : hsl.h ≤ 360) :
    hslToRgb hsl =
      ⟨jsRound ((lnQ hsl + cQ hsl * (wR (hsl.h : ℚ) - 1/2)) * 255),
       jsRound ((lnQ hsl + cQ hsl * (wG (hsl.h : ℚ) - 1/2)) * 255),
       jsRound ((lnQ hsl + cQ hsl * (wB (hsl.h : ℚ) - 1/2)) * 255)⟩ := by
  have h0' : (0 : ℚ) ≤ (hsl.h : ℚ) := by exact_mod_cast h0
  have h360' : (hsl.h : ℚ) ≤ 360 := by exact_mod_cast h360
  simp only [hslToRgb, lnQ, snQ, cQ, RGBColor.mk.injEq]
  set H : ℚ := (hsl.h : ℚ) with hH
  by_cases c1 : H < 60
  · rw [if_pos c1, jsMod60_sector01 h0' (by linarith)]
    have hwR : wR H = 1 := by
      unfold wR
      rw [abs_of_nonpos (by linarith : H / 60 - 3 ≤ 0)]
      exact clamp01_of_one_le (by linarith)
    have hwG : wG H = H / 60 := by
      unfold wG
      rw [abs_of_nonpos (by linarith : H / 60 - 2 ≤ 0),
        (by ring : 2 - -(H / 60 - 2) = H / 60)]
      exact clamp01_of_mem (by linarith) (by linarith)
    have hwB : wB H = 0 := by
      unfold wB
      rw [abs_of_nonpos (by linarith : H / 60 - 4 ≤ 0)]
      exact clamp01_of_nonpos (by linarith)
    have ht : |H / 60 - 1| = -(H / 60 - 1) :=
      abs_of_nonpos (by linarith)
    rw [hwR, hwG, hwB, ht]
    refine ⟨?_, ?_, ?_⟩ <;> · congr 1; ring
  · rw [if_neg c1]
    by_cases c2 : H < 120
    · rw [if_pos c2, jsMod60_sector01 h0' (by linarith)]
      have hwR : wR H = 2 - H / 60 := by
        unfold wR
        rw [abs_of_nonpos (by linarith : H / 60 - 3 ≤ 0),
          (by ring : -(H / 60 - 3) - 1 = 2 - H / 60)]
        exact clamp01_of_mem (by linarith) (by linarith)
      have hwG : wG H = 1 := by
        unfold wG
        rw [abs_of_nonpos (by linarith : H / 60 - 2 ≤ 0)]
        exact clamp01_of_one_le (by linarith)
      have hwB : wB H = 0 := by
        unfold wB
        rw [abs_of_nonpos (by linarith : H / 60 - 4 ≤ 0)]
        exact clamp01_of_nonpos (by linarith)
      have ht : |H / 60 - 1| = H / 60 - 1 :=
        abs_of_nonneg (by linarith)
      rw [hwR, hwG, hwB, ht]
      refine ⟨?_, ?_, ?_⟩ <;> · congr 1; ring
    · rw [if_neg c2]
      by_cases c3 : H < 180
      · rw [if_pos c3, jsMod60_sector23 (by linarith) (by linarith)]
        have hwR : wR H = 0 := by
          unfold wR
          rw [abs_of_nonpos (by linarith : H / 60 - 3 ≤ 0)]
          exact clamp01_of_nonpos (by linarith)
        have hwG : wG H = 1 := by
          unfold wG
          rw [abs_of_nonneg (by linarith : 0 ≤ H / 60 - 2)]
          exact clamp01_of_one_le (by linarith)
        have hwB : wB H = H / 60 - 2 := by
          unfold wB
          rw [abs_of_nonpos (by linarith : H / 60 - 4 ≤ 0),
            (by ring : 2 - -(H / 60 - 4) = H / 60 - 2)]
          exact clamp01_of_mem (by linarith) (by linarith)
        have ht : |H / 60 - 2 - 1| = -(H / 60 - 2 - 1) :=
          abs_of_nonpos (by linarith)
        rw [hwR, hwG, hwB, ht]
        refine ⟨?_, ?_, ?_⟩ <;> · congr 1; ring
      · rw [if_neg c3]
        by_cases c4 : H < 240
        · rw [if_pos c4, jsMod60_sector23 (by linarith) (by linarith)]
          have hwR : wR H = 0 := by
            unfold wR
            rw [abs_of_nonneg (by linarith : 0 ≤ H / 60 - 3)]
            exact clamp01_of_nonpos (by linarith)
          have hwG : wG H = 4 - H / 60 := by
            unfold wG
            rw [abs_of_nonneg (by linarith : 0 ≤ H / 60 - 2),
              (by ring : 2 - (H / 60 - 2) = 4 - H / 60)]
            exact clamp01_of_mem (by linarith) (by linarith)
          have hwB : wB H = 1 := by
            unfold wB
            rw [abs_of_nonpos (by linarith : H / 60 - 4 ≤ 0)]
            exact clamp01_of_one_le (by linarith)
          have ht : |H / 60 - 2 - 1| = H / 60 - 2 - 1 :=
            abs_of_nonneg (by linarith)
          rw [hwR, hwG, hwB, ht]
          refine ⟨?_, ?_, ?_⟩ <;> · congr 1; ring
        · rw [if_neg c4]
          by_cases c5 : H < 300
          · rw [if_pos c5, jsMod60_sector45 (by linarith) (by linarith)]
            have hwR : wR H = H / 60 - 4 := by
              unfold wR
              rw [abs_of_nonneg (by linarith : 0 ≤ H / 60 - 3),
                (by ring : H / 60 - 3 - 1 = H / 60 - 4)]
              exact clamp01_of_mem (by linarith) (by linarith)
            have hwG : wG H = 0 := by
              unfold wG
              rw [abs_of_nonneg (by linarith : 0 ≤ H / 60 - 2)]
              exact clamp01_of_nonpos (by linarith)
            have hwB : wB H = 1 := by
              unfold wB
              rw [abs_of_nonneg (by linarith : 0 ≤ H / 60 - 4)]
              exact clamp01_of_one_le (by linarith)
            have ht : |H / 60 - 4 - 1| = -(H / 60 - 4 - 1) :=
              abs_of_nonpos (by linarith)
            rw [hwR, hwG, hwB, ht]
            refine ⟨?_, ?_, ?_⟩ <;> · congr 1; ring
          · rw [if_neg c5]
            by_cases c6 : H < 360
            · rw [jsMod60_sector45 (by linarith) (by linarith)]
              have hwR : wR H = 1 := by
                unfold wR
                rw [abs_of_nonneg (by linarith : 0 ≤ H / 60 - 3)]
                exact clamp01_of_one_le (by linarith)
              have hwG : wG H = 0 := by
                unfold wG
                rw [abs_of_nonneg (by linarith : 0 ≤ H / 60 - 2)]
                exact clamp01_of_nonpos (by linarith)
              have hwB : wB H = 6 - H / 60 := by
                unfold wB
                rw [abs_of_nonneg (by linarith : 0 ≤ H / 60 - 4),
                  (by ring : 2 - (H / 60 - 4) = 6 - H / 60)]
                exact clamp01_of_mem (by linarith) (by linarith)
              have ht : |H / 60 - 4 - 1| = H / 60 - 4 - 1 :=
                abs_of_nonneg (by linarith)
              rw [hwR, hwG, hwB, ht]
              refine ⟨?_, ?_, ?_⟩ <;> · congr 1; ring
            · have h6 : H = 360 := le_antisymm h360' (by linarith)
              rw [h6, jsMod60_at360]
              have hwR : wR 360 = 1 := by
                unfold wR
                norm_num
                exact clamp01_of_one_le (by norm_num)
              have hwG : wG 360 = 0 := by
                unfold wG
                norm_num
                exact clamp01_of_nonpos (by norm_num)
              have hwB : wB 360 = 0 := by
                unfold wB
                norm_num
                exact clamp01_of_nonpos (by norm_num)
              have ht : |(0 : ℚ) - 1| = 1 := by norm_num
              rw [hwR, hwG, hwB, ht]
              refine ⟨?_, ?_, ?_⟩ <;> · congr 1; ring

/-! ## Range of `hslToRgb` -/

theorem cQ_facts (hsl : HSLColor) (hs0 : 0 ≤ hsl.s) (hs1 : hsl.s ≤ 100)
    (hl0 : 0 ≤ hsl.l) (hl1 : hsl.l ≤ 100) :
    0 ≤ cQ hsl ∧ cQ hsl ≤ 2 * lnQ hsl ∧ cQ hsl ≤ 2 - 2 * lnQ hsl := by
  have hS0 : (0 : ℚ) ≤ snQ hsl := by
    unfold snQ
    positivity
  have hS1 : snQ hsl ≤ 1 := by
    unfold snQ
    rw [div_le_one (by norm_num)]
    exact_mod_cast hs1
  have hL0 : (0 : ℚ) ≤ lnQ hsl := by
    unfold lnQ
    positivity
  have hL1 : lnQ hsl ≤ 1 := by
    unfold lnQ
    rw [div_le_one (by norm_num)]
    exact_mod_cast hl1
  unfold cQ
  rcases abs_cases (2 * lnQ hsl - 1) with ⟨hA, hA'⟩ | ⟨hA, hA'⟩ <;> rw [hA] <;>
    refine ⟨by nlinarith, by nlinarith, by nlinarith⟩

theorem hslToRgb_range (hsl : HSLColor) (hh0 : 0 ≤ hsl.h) (hh1 : hsl.h ≤ 360)
    (hs0 : 0 ≤ hsl.s) (hs1 : hsl.s ≤ 100) (hl0 : 0 ≤ hsl.l) (hl1 : hsl.l ≤ 100) :
    0 ≤ (hslToRgb hsl).r ∧ (hslToRgb hsl).r ≤ 255 ∧
    0 ≤ (hslToRgb hsl).g ∧ (hslToRgb hsl).g ≤ 255 ∧
    0 ≤ (hslToRgb hsl).b ∧ (hslToRgb hsl).b ≤ 255 := by
  obtain ⟨hc0, hcl, hcr⟩ := cQ_facts hsl hs0 hs1 hl0 hl1
  have key : ∀ w : ℚ, 0 ≤ w → w ≤ 1 →
      0 ≤ jsRound ((lnQ hsl + cQ hsl * (w - 1/2)) * 255) ∧
      jsRound ((lnQ hsl + cQ hsl * (w - 1/2)) * 255) ≤ 255 := by
    intro w hw0 hw1
    constructor
    · exact jsRound_nonneg (by nlinarith)
    · exact jsRound_le_of_le (by push_cast; nlinarith)
  rw [hslToRgb_closedForm hsl hh0 hh1]
  obtain ⟨r1, r2⟩ := key _ (clamp01_nonneg (|(hsl.h : ℚ) / 60 - 3| - 1))
    (clamp01_le_one _)
  obtain ⟨g1, g2⟩ := key _ (clamp01_nonneg (2 - |(hsl.h : ℚ) / 60 - 2|))
    (clamp01_le_one _)
  obtain ⟨b1, b2⟩ := key _ (clamp01_nonneg (2 - |(hsl.h : ℚ) / 60 - 4|))
    (clamp01_le_one _)
  exact ⟨r1, r2, g1, g2, b1, b2⟩

/-! ## Inversion: `rgbToHsl`'s unrounded output feeds back exactly -/

theorem wR_mul60 (u : ℚ) : wR (u * 60) = clamp01 (|u - 3| - 1) := by
  unfold wR
  rw [mul_div_cancel_right₀ _ (by norm_num : (60 : ℚ) ≠ 0)]

theorem wG_mul60 (u : ℚ) : wG (u * 60) = clamp01 (2 - |u - 2|) := by
  unfold wG
  rw [mul_div_cancel_right₀ _ (by norm_num : (60 : ℚ) ≠ 0)]

theorem wB_mul60 (u : ℚ) : wB (u * 60) = clamp01 (2 - |u - 4|) := by
  unfold wB
  rw [mul_div_cancel_right₀ _ (by norm_num : (60 : ℚ) ≠ 0)]

/-- In the chromatic case, the unrounded hue lies in `[0, 360)` and the
closed-form HSL→RGB map at the unrounded hue, saturation `exactD` and
lightness `exactL` reproduces each channel exactly. -/
theorem exact_facts (rgb : RGBColor) (hd : exactD rgb ≠ 0) :
    (0 ≤ exactH rgb ∧ exactH rgb < 360) ∧
    rnQ rgb = exactL rgb + exactD rgb * (wR (exactH rgb) - 1/2) ∧
    gnQ rgb = exactL rgb + exactD rgb * (wG (exactH rgb) - 1/2) ∧
    bnQ rgb = exactL rgb + exactD rgb * (wB (exactH rgb) - 1/2) := by
  unfold exactD exactMax exactMin at hd
  unfold exactH exactD exactL exactMax exactMin
  set x : ℚ := rnQ rgb with hxd
  set y : ℚ := gnQ rgb with hyd
  set z : ℚ := bnQ rgb with hzd
  by_cases hxm : max x (max y z) = x
  · by_cases hyz : y < z
    · -- max = r, g < b : sector near 360
      have hyx : y ≤ x := by
        rw [← hxm]
        exact (le_max_left y z).trans (le_max_right x _)
      have hzx : z ≤ x := by
        rw [← hxm]
        exact (le_max_right y z).trans (le_max_right x _)
      have hmn : min x (min y z) = y := by
        rw [min_eq_left hyz.le, min_eq_right hyx]
      rw [hxm, hmn] at hd ⊢
      rw [if_pos rfl, if_pos hyz]
      have hdpos : 0 < x - y := lt_of_le_of_ne (by linarith) (Ne.symm hd)
      set t : ℚ := (y - z) / (x - y) with htd
      have ht1 : -1 ≤ t := by
        rw [htd, le_div_iff hdpos]
        linarith
      have ht0 : t < 0 := div_neg_of_neg_of_pos (by linarith) hdpos
      have hdt : (x - y) * t = y - z := by
        rw [htd]
        field_simp
      have hwr : wR ((t + 6) * 60) = 1 := by
        rw [wR_mul60, (by ring : t + 6 - 3 = t + 3)]
        rw [abs_of_nonneg (by linarith)]
        exact clamp01_of_one_le (by linarith)
      have hwg : wG ((t + 6) * 60) = 0 := by
        rw [wG_mul60, (by ring : t + 6 - 2 = t + 4)]
        rw [abs_of_nonneg (by linarith)]
        exact clamp01_of_nonpos (by linarith)
      have hwb : wB ((t + 6) * 60) = -t := by
        rw [wB_mul60, (by ring : t + 6 - 4 = t + 2)]
        rw [abs_of_nonneg (by linarith), (by ring : 2 - (t + 2) = -t)]
        exact clamp01_of_mem (by linarith) (by linarith)
      refine ⟨⟨by nlinarith, by nlinarith⟩, ?_, ?_, ?_⟩
      · rw [hwr]
        ring
      · rw [hwg]
        ring
      · rw [hwb]
        linear_combination hdt
    · -- max = r, g ≥ b : sector [0, 60]
      have hzy : z ≤ y := le_of_not_lt hyz
      have hyx : y ≤ x := by
        rw [← hxm]
        exact (le_max_left y z).trans (le_max_right x _)
      have hzx : z ≤ x := by
        rw [← hxm]
        exact (le_max_right y z).trans (le_max_right x _)
      have hmn : min x (min y z) = z := by
        rw [min_eq_right hzy, min_eq_right hzx]
      rw [hxm, hmn] at hd ⊢
      rw [if_pos rfl, if_neg hyz]
      have hdpos : 0 < x - z := lt_of_le_of_ne (by linarith) (Ne.symm hd)
      set t : ℚ := (y - z) / (x - z) with htd
      have ht0 : 0 ≤ t := div_nonneg (by linarith) hdpos.le
      have ht1 : t ≤ 1 := by
        rw [htd, div_le_one hdpos]
        linarith
      have hdt : (x - z) * t = y - z := by
        rw [htd]
        field_simp
      have hwr : wR ((t + 0) * 60) = 1 := by
        rw [wR_mul60, (by ring : t + 0 - 3 = t - 3)]
        rw [abs_of_nonpos (by linarith)]
        exact clamp01_of_one_le (by linarith)
      have hwg : wG ((t + 0) * 60) = t := by
        rw [wG_mul60, (by ring : t + 0 - 2 = t - 2)]
        rw [abs_of_nonpos (by linarith), (by ring : 2 - -(t - 2) = t)]
        exact clamp01_of_mem (by linarith) (by linarith)
      have hwb : wB ((t + 0) * 60) = 0 := by
        rw [wB_mul60, (by ring : t + 0 - 4 = t - 4)]
        rw [abs_of_nonpos (by linarith), (by ring : 2 - -(t - 4) = t - 2)]
        exact clamp01_of_nonpos (by linarith)
      refine ⟨⟨by nlinarith, by nlinarith⟩, ?_, ?_, ?_⟩
      · rw [hwr]
        ring
      · rw [hwg]
        linear_combination -hdt
      · rw [hwb]
        ring
  · by_cases hym : max x (max y z) = y
    · -- max = g : sector [60, 180]
      have hxy : x ≤ y := by
        rw [← hym]
        exact le_max_left x _
      have hzy : z ≤ y := by
        rw [← hym]
        exact (le_max_right y z).trans (le_max_right x _)
      have hyneq : y ≠ x := fun h => hxm (hym.trans h)
      rw [hym] at hd ⊢
      rw [if_neg hyneq, if_pos rfl]
      by_cases hbr : z < x
      · have hmn : min x (min y z) = z := by
          rw [min_eq_right hzy, min_eq_right hbr.le]
        rw [hmn] at hd ⊢
        have hdpos : 0 < y - z := lt_of_le_of_ne (by linarith) (Ne.symm hd)
        set t : ℚ := (z - x) / (y - z) with htd
        have ht0 : t < 0 := div_neg_of_neg_of_pos (by linarith) hdpos
        have ht1 : -1 ≤ t := by
          rw [htd, le_div_iff hdpos]
          linarith
        have hdt : (y - z) * t = z - x := by
          rw [htd]
          field_simp
        have hwr : wR ((t + 2) * 60) = -t := by
          rw [wR_mul60, (by ring : t + 2 - 3 = t - 1)]
          rw [abs_of_nonpos (by linarith), (by ring : -(t - 1) - 1 = -t)]
          exact clamp01_of_mem (by linarith) (by linarith)
        have hwg : wG ((t + 2) * 60) = 1 := by
          rw [wG_mul60, (by ring : t + 2 - 2 = t)]
          rw [abs_of_nonpos (by linarith)]
          exact clamp01_of_one_le (by linarith)
        have hwb : wB ((t + 2) * 60) = 0 := by
          rw [wB_mul60, (by ring : t + 2 - 4 = t - 2)]
          rw [abs_of_nonpos (by linarith), (by ring : 2 - -(t - 2) = t)]
          exact clamp01_of_nonpos (by linarith)
        refine ⟨⟨by nlinarith, by nlinarith⟩, ?_, ?_, ?_⟩
        · rw [hwr]
          linear_combination hdt
        · rw [hwg]
          ring
        · rw [hwb]
          ring
      · have hxz : x ≤ z := le_of_not_lt hbr
        have hmn : min x (min y z) = x := by
          rw [min_eq_right hzy, min_eq_left hxz]
        rw [hmn] at hd ⊢
        have hdpos : 0 < y - x := lt_of_le_of_ne (by linarith) (Ne.symm hd)
        set t : ℚ := (z - x) / (y - x) with htd
        have ht0 : 0 ≤ t := div_nonneg (by linarith) hdpos.le
        have ht1 : t ≤ 1 := by
          rw [htd, div_le_one hdpos]
          linarith
        have hdt : (y - x) * t = z - x := by
          rw [htd]
          field_simp
        have hwr : wR ((t + 2) * 60) = 0 := by
          rw [wR_mul60, (by ring : t + 2 - 3 = t - 1)]
          rw [abs_of_nonpos (by linarith), (by ring : -(t - 1) - 1 = -t)]
          exact clamp01_of_nonpos (by linarith)
        have hwg : wG ((t + 2) * 60) = 1 := by
          rw [wG_mul60, (by ring : t + 2 - 2 = t)]
          rw [abs_of_nonneg ht0]
          exact clamp01_of_one_le (by linarith)
        have hwb : wB ((t + 2) * 60) = t := by
          rw [wB_mul60, (by ring : t + 2 - 4 = t - 2)]
          rw [abs_of_nonpos (by linarith), (by ring : 2 - -(t - 2) = t)]
          exact clamp01_of_mem ht0 ht1
        refine ⟨⟨by nlinarith, by nlinarith⟩, ?_, ?_, ?_⟩
        · rw [hwr]
          ring
        · rw [hwg]
          ring
        · rw [hwb]
          linear_combination -hdt
    · -- max = b : sector [180, 300]
      have hmz : max x (max y z) = z := by
        rcases max_choice x (max y z) with h | h
        · exact absurd h hxm
        · rcases max_choice y z with h2 | h2
          · exact absurd (h.trans h2) hym
          · exact h.trans h2
      have hxz : x ≤ z := by
        rw [← hmz]
        exact le_max_left x _
      have hyz' : y ≤ z := by
        rw [← hmz]
        exact (le_max_left y z).trans (le_max_right x _)
      have hzneqx : z ≠ x := fun h => hxm (hmz.trans h)
      have hzneqy : z ≠ y := fun h => hym (hmz.trans h)
      rw [hmz] at hd ⊢
      rw [if_neg hzneqx, if_neg hzneqy]
      by_cases hrg : x < y
      · have hmn : min x (min y z) = x := by
          rw [min_eq_left hyz', min_eq_left hrg.le]
        rw [hmn] at hd ⊢
        have hdpos : 0 < z - x := lt_of_le_of_ne (by linarith) (Ne.symm hd)
        set t : ℚ := (x - y) / (z - x) with htd
        have ht0 : t < 0 := div_neg_of_neg_of_pos (by linarith) hdpos
        have ht1 : -1 ≤ t := by
          rw [htd, le_div_iff hdpos]
          linarith
        have hdt : (z - x) * t = x - y := by
          rw [htd]
          field_simp
        have hwr : wR ((t + 4) * 60) = 0 := by
          rw [wR_mul60, (by ring : t + 4 - 3 = t + 1)]
          rw [abs_of_nonneg (by linarith), (by ring : t + 1 - 1 = t)]
          exact clamp01_of_nonpos ht0.le
        have hwg : wG ((t + 4) * 60) = -t := by
          rw [wG_mul60, (by ring : t + 4 - 2 = t + 2)]
          rw [abs_of_nonneg (by linarith), (by ring : 2 - (t + 2) = -t)]
          exact clamp01_of_mem (by linarith) (by linarith)
        have hwb : wB ((t + 4) * 60) = 1 := by
          rw [wB_mul60, (by ring : t + 4 - 4 = t)]
          rw [abs_of_nonpos ht0.le]
          exact clamp01_of_one_le (by linarith)
        refine ⟨⟨by nlinarith, by nlinarith⟩, ?_, ?_, ?_⟩
        · rw [hwr]
          ring
        · rw [hwg]
          linear_combination hdt
        · rw [hwb]
          ring
      · have hgx : y ≤ x := le_of_not_lt hrg
        have hmn : min x (min y z) = y := by
          rw [min_eq_left hyz', min_eq_right hgx]
        rw [hmn] at hd ⊢
        have hdpos : 0 < z - y := lt_of_le_of_ne (by linarith) (Ne.symm hd)
        set t : ℚ := (x - y) / (z - y) with htd
        have ht0 : 0 ≤ t := div_nonneg (by linarith) hdpos.le
        have ht1 : t ≤ 1 := by
          rw [htd, div_le_one hdpos]
          linarith
        have hdt : (z - y) * t = x - y := by
          rw [htd]
          field_simp
        have hwr : wR ((t + 4) * 60) = t := by
          rw [wR_mul60, (by ring : t + 4 - 3 = t + 1)]
          rw [abs_of_nonneg (by linarith), (by ring : t + 1 - 1 = t)]
          exact clamp01_of_mem ht0 ht1
        have hwg : wG ((t + 4) * 60) = 0 := by
          rw [wG_mul60, (by ring : t + 4 - 2 = t + 2)]
          rw [abs_of_nonneg (by linarith), (by ring : 2 - (t + 2) = -t)]
          exact clamp01_of_nonpos (by linarith)
        have hwb : wB ((t + 4) * 60) = 1 := by
          rw [wB_mul60, (by ring : t + 4 - 4 = t)]
          rw [abs_of_nonneg ht0]
          exact clamp01_of_one_le (by linarith)
        refine ⟨⟨by nlinarith, by nlinarith⟩, ?_, ?_, ?_⟩
        · rw [hwr]
          linear_combination -hdt
        · rw [hwg]
          ring
        · rw [hwb]
          ring

/-! ## Lipschitz bounds for the hue weights -/

theorem clamp01_lipschitz (a b : ℚ) : |clamp01 a - clamp01 b| ≤ |a - b| := by
  unfold clamp01
  calc |max 0 (min 1 a) - max 0 (min 1 b)|
      = |max (min 1 a) 0 - max (min 1 b) 0| := by
        rw [max_comm, max_comm (min 1 b)]
    _ ≤ |min 1 a - min 1 b| := abs_max_sub_max_le_abs _ _ _
    _ ≤ max |(1 : ℚ) - 1| |a - b| := abs_min_sub_min_le_max 1 a 1 b
    _ ≤ |a - b| := by simp

theorem wR_lipschitz (a b : ℚ) : |wR a - wR b| ≤ |a - b| / 60 := by
  unfold wR
  calc |clamp01 (|a / 60 - 3| - 1) - clamp01 (|b / 60 - 3| - 1)|
      ≤ |(|a / 60 - 3| - 1) - (|b / 60 - 3| - 1)| := clamp01_lipschitz _ _
    _ = |(|a / 60 - 3| - |b / 60 - 3|)| := by ring_nf
    _ ≤ |(a / 60 - 3) - (b / 60 - 3)| := abs_abs_sub_abs_le_abs_sub _ _
    _ = |a - b| / 60 := by
        rw [show (a / 60 - 3) - (b / 60 - 3) = (a - b) / 60 by ring, abs_div]
        norm_num

theorem wG_lipschitz (a b : ℚ) : |wG a - wG b| ≤ |a - b| / 60 := by
  unfold wG
  calc |clamp01 (2 - |a / 60 - 2|) - clamp01 (2 - |b / 60 - 2|)|
      ≤ |(2 - |a / 60 - 2|) - (2 - |b / 60 - 2|)| := clamp01_lipschitz _ _
    _ = |(|b / 60 - 2| - |a / 60 - 2|)| := by ring_nf
    _ ≤ |(b / 60 - 2) - (a / 60 - 2)| := abs_abs_sub_abs_le_abs_sub _ _
    _ = |a - b| / 60 := by
        rw [show (b / 60 - 2) - (a / 60 - 2) = (b - a) / 60 by ring, abs_div,
          abs_sub_comm b a]
        norm_num

theorem wB_lipschitz (a b : ℚ) : |wB a - wB b| ≤ |a - b| / 60 := by
  unfold wB
  calc |clamp01 (2 - |a / 60 - 4|) - clamp01 (2 - |b / 60 - 4|)|
      ≤ |(2 - |a / 60 - 4|) - (2 - |b / 60 - 4|)| := clamp01_lipschitz _ _
    _ = |(|b / 60 - 4| - |a / 60 - 4|)| := by ring_nf
    _ ≤ |(b / 60 - 4) - (a / 60 - 4)| := abs_abs_sub_abs_le_abs_sub _ _
    _ = |a - b| / 60 := by
        rw [show (b / 60 - 4) - (a / 60 - 4) = (b - a) / 60 by ring, abs_div,
          abs_sub_comm b a]
        norm_num

/-! ## Ranges of the unrounded HSL values -/

theorem channelQ_mem (rgb : RGBColor) (hr0 : 0 ≤ rgb.r) (hr1 : rgb.r ≤ 255)
    (hg0 : 0 ≤ rgb.g) (hg1 : rgb.g ≤ 255) (hb0 : 0 ≤ rgb.b) (hb1 : rgb.b ≤ 255) :
    (0 ≤ rnQ rgb ∧ rnQ rgb ≤ 1) ∧ (0 ≤ gnQ rgb ∧ gnQ rgb ≤ 1) ∧
    (0 ≤ bnQ rgb ∧ bnQ rgb ≤ 1) := by
  unfold rnQ gnQ bnQ
  have h255 : (0 : ℚ) < 255 := by norm_num
  refine ⟨⟨?_, ?_⟩, ⟨?_, ?_⟩, ⟨?_, ?_⟩⟩
  · exact div_nonneg (by exact_mod_cast hr0) h255.le
  · rw [div_le_one h255]
    exact_mod_cast hr1
  · exact div_nonneg (by exact_mod_cast hg0) h255.le
  · rw [div_le_one h255]
    exact_mod_cast hg1
  · exact div_nonneg (by exact_mod_cast hb0) h255.le
  · rw [div_le_one h255]
    exact_mod_cast hb1

theorem exact_bounds (rgb : RGBColor) (hr0 : 0 ≤ rgb.r) (hr1 : rgb.r ≤ 255)
    (hg0 : 0 ≤ rgb.g) (hg1 : rgb.g ≤ 255) (hb0 : 0 ≤ rgb.b) (hb1 : rgb.b ≤ 255) :
    0 ≤ exactMin rgb ∧ exactMin rgb ≤ exactMax rgb ∧ exactMax rgb ≤ 1 := by
  obtain ⟨⟨hx0, hx1⟩, ⟨hy0, hy1⟩, ⟨hz0, hz1⟩⟩ :=
    channelQ_mem rgb hr0 hr1 hg0 hg1 hb0 hb1
  unfold exactMax exactMin
  refine ⟨le_min hx0 (le_min hy0 hz0), ?_, max_le hx1 (max_le hy1 hz1)⟩
  exact (min_le_left _ _).trans (le_max_left _ _)

theorem exactL_mem (rgb : RGBColor) (hr0 : 0 ≤ rgb.r) (hr1 : rgb.r ≤ 255)
    (hg0 : 0 ≤ rgb.g) (hg1 : rgb.g ≤ 255) (hb0 : 0 ≤ rgb.b) (hb1 : rgb.b ≤ 255) :
    0 ≤ exactL rgb ∧ exactL rgb ≤ 1 := by
  obtain ⟨h1, h2, h3⟩ := exact_bounds rgb hr0 hr1 hg0 hg1 hb0 hb1
  have hldef : exactL rgb = (exactMax rgb + exactMin rgb) / 2 := rfl
  rw [hldef]
  constructor <;> linarith

theorem exactS_mem (rgb : RGBColor) (hr0 : 0 ≤ rgb.r) (hr1 : rgb.r ≤ 255)
    (hg0 : 0 ≤ rgb.g) (hg1 : rgb.g ≤ 255) (hb0 : 0 ≤ rgb.b) (hb1 : rgb.b ≤ 255)
    (hd : exactD rgb ≠ 0) : 0 ≤ exactS rgb ∧ exactS rgb ≤ 1 := by
  obtain ⟨h1, h2, h3⟩ := exact_bounds rgb hr0 hr1 hg0 hg1 hb0 hb1
  have hdef : exactD rgb = exactMax rgb - exactMin rgb := rfl
  have hdpos : 0 < exactD rgb :=
    lt_of_le_of_ne (by rw [hdef]; linarith) (Ne.symm hd)
  have hldef : exactL rgb = (exactMax rgb + exactMin rgb) / 2 := rfl
  rw [hdef] at hdpos
  unfold exactS
  rw [hdef, hldef]
  split_ifs with hl
  · have hden : 0 < 2 - exactMax rgb - exactMin rgb := by linarith
    constructor
    · exact div_nonneg (by linarith) hden.le
    · rw [div_le_one hden]
      linarith
  · push_neg at hl
    have hden : 0 < exactMax rgb + exactMin rgb := by linarith
    constructor
    · exact div_nonneg (by linarith) hden.le
    · rw [div_le_one hden]
      linarith

theorem exactD_mem (rgb : RGBColor) (hr0 : 0 ≤ rgb.r) (hr1 : rgb.r ≤ 255)
    (hg0 : 0 ≤ rgb.g) (hg1 : rgb.g ≤ 255) (hb0 : 0 ≤ rgb.b) (hb1 : rgb.b ≤ 255) :
    0 ≤ exactD rgb ∧ exactD rgb ≤ 1 := by
  obtain ⟨h1, h2, h3⟩ := exact_bounds rgb hr0 hr1 hg0 hg1 hb0 hb1
  have hdef : exactD rgb = exactMax rgb - exactMin rgb := rfl
  rw [hdef]
  constructor <;> linarith

/-- In the chromatic case the chroma recomputed from the unrounded
saturation and lightness is exactly `d`. -/
theorem exactC_eq (rgb : RGBColor) (hr0 : 0 ≤ rgb.r) (hr1 : rgb.r ≤ 255)
    (hg0 : 0 ≤ rgb.g) (hg1 : rgb.g ≤ 255) (hb0 : 0 ≤ rgb.b) (hb1 : rgb.b ≤ 255)
    (hd : exactD rgb ≠ 0) :
    (1 - |2 * exactL rgb - 1|) * exactS rgb = exactD rgb := by
  obtain ⟨h1, h2, h3⟩ := exact_bounds rgb hr0 hr1 hg0 hg1 hb0 hb1
  have hdef : exactD rgb = exactMax rgb - exactMin rgb := rfl
  have hdpos : 0 < exactD rgb :=
    lt_of_le_of_ne (by rw [hdef]; linarith) (Ne.symm hd)
  have hldef : exactL rgb = (exactMax rgb + exactMin rgb) / 2 := rfl
  rw [hdef] at hdpos
  unfold exactS
  rw [hdef, hldef]
  split_ifs with hl
  · rw [abs_of_nonneg (by linarith)]
    have hden : 2 - exactMax rgb - exactMin rgb ≠ 0 := by nlinarith
    field_simp
    ring
  · push_neg at hl
    rw [abs_of_nonpos (by linarith)]
    have hden : exactMax rgb + exactMin rgb ≠ 0 := by nlinarith
    field_simp

/-! ## Unfolding `rgbToHsl` -/

theorem rgbToHsl_eq_chromatic (rgb : RGBColor) (hd : exactD rgb ≠ 0) :
    rgbToHsl rgb = ⟨jsRound (exactH rgb), jsRound (exactS rgb * 100),
      jsRound (exactL rgb * 100)⟩ := by
  unfold exactD exactMax exactMin rnQ gnQ bnQ at hd
  simp only [rgbToHsl, exactH, exactS, exactL, exactD, exactMax, exactMin,
    rnQ, gnQ, bnQ]
  rw [if_neg hd]

theorem rgbToHsl_eq_achromatic (rgb : RGBColor) (hd : exactD rgb = 0) :
    rgbToHsl rgb = ⟨0, 0, jsRound (exactL rgb * 100)⟩ := by
  unfold exactD exactMax exactMin rnQ gnQ bnQ at hd
  simp only [rgbToHsl, exactL, exactMax, exactMin, rnQ, gnQ, bnQ]
  rw [if_pos hd]

/-- `d = 0` forces all three normalized channels to equal the lightness. -/
theorem achromatic_channels (rgb : RGBColor) (hd : exactD rgb = 0) :
    exactL rgb = rnQ rgb ∧ exactL rgb = gnQ rgb ∧ exactL rgb = bnQ rgb := by
  have hdef : exactD rgb = exactMax rgb - exactMin rgb := rfl
  have hldef : exactL rgb = (exactMax rgb + exactMin rgb) / 2 := rfl
  have heq : exactMax rgb = exactMin rgb := by
    rw [hdef] at hd
    linarith [sub_eq_zero.mp hd]
  have hx : exactMin rgb ≤ rnQ rgb := min_le_left _ _
  have hx2 : rnQ rgb ≤ exactMax rgb := le_max_left _ _
  have hy : exactMin rgb ≤ gnQ rgb :=
    le_trans (min_le_right _ _) (min_le_left _ _)
  have hy2 : gnQ rgb ≤ exactMax rgb :=
    le_trans (le_max_left _ _) (le_max_right _ _)
  have hz : exactMin rgb ≤ bnQ rgb :=
    le_trans (min_le_right _ _) (min_le_right _ _)
  have hz2 : bnQ rgb ≤ exactMax rgb :=
    le_trans (le_max_right _ _) (le_max_right _ _)
  refine ⟨?_, ?_, ?_⟩ <;> · rw [hldef]; linarith

/-! ## The round-trip error bound (claims C2 and C3) -/

theorem wR_mem (h : ℚ) : 0 ≤ wR h ∧ wR h ≤ 1 :=
  ⟨clamp01_nonneg _, clamp01_le_one _⟩

theorem wG_mem (h : ℚ) : 0 ≤ wG h ∧ wG h ≤ 1 :=
  ⟨clamp01_nonneg _, clamp01_le_one _⟩

theorem wB_mem (h : ℚ) : 0 ≤ wB h ∧ wB h ≤ 1 :=
  ⟨clamp01_nonneg _, clamp01_le_one _⟩

/-- One channel of the round trip: if the rounded lightness and chroma are
within `1/200` and `3/200` of the unrounded ones, the weight within
`1/120`, and the unrounded closed form reproduces the channel exactly,
then the recomputed channel is within 5 of the original. -/
theorem roundTrip_channel (rgb : RGBColor) (hsl' : HSLColor) (W w₀ : ℚ)
    (ch : ℤ)
    (hLN : |lnQ hsl' - exactL rgb| ≤ 1/200)
    (hC : |cQ hsl' - exactD rgb| ≤ 3/200)
    (hd0 : 0 ≤ exactD rgb) (hd1 : exactD rgb ≤ 1)
    (hW : |W - 1/2| ≤ 1/2) (hWw : |W - w₀| ≤ 1/120)
    (hinv : (ch : ℚ) / 255 = exactL rgb + exactD rgb * (w₀ - 1/2)) :
    |jsRound ((lnQ hsl' + cQ hsl' * (W - 1/2)) * 255) - ch| ≤ 5 := by
  set v : ℚ := (lnQ hsl' + cQ hsl' * (W - 1/2)) * 255 with hv
  have hch : (ch : ℚ) = (exactL rgb + exactD rgb * (w₀ - 1/2)) * 255 := by
    rw [div_eq_iff (by norm_num : (255 : ℚ) ≠ 0)] at hinv
    exact hinv
  have key : |(lnQ hsl' + cQ hsl' * (W - 1/2)) -
      (exactL rgb + exactD rgb * (w₀ - 1/2))| ≤ 1/48 := by
    have e1 : (lnQ hsl' + cQ hsl' * (W - 1/2)) -
        (exactL rgb + exactD rgb * (w₀ - 1/2)) =
        (lnQ hsl' - exactL rgb) + ((cQ hsl' - exactD rgb) * (W - 1/2) +
          exactD rgb * (W - w₀)) := by ring
    rw [e1]
    have t1 : |(cQ hsl' - exactD rgb) * (W - 1/2)| ≤ (3/200) * (1/2) := by
      rw [abs_mul]
      exact mul_le_mul hC hW (abs_nonneg _) (by norm_num)
    have t2 : |exactD rgb * (W - w₀)| ≤ 1 * (1/120) := by
      rw [abs_mul, abs_of_nonneg hd0]
      exact mul_le_mul hd1 hWw (abs_nonneg _) (by norm_num)
    calc |(lnQ hsl' - exactL rgb) + ((cQ hsl' - exactD rgb) * (W - 1/2) +
          exactD rgb * (W - w₀))|
        ≤ |lnQ hsl' - exactL rgb| + |(cQ hsl' - exactD rgb) * (W - 1/2) +
          exactD rgb * (W - w₀)| := abs_add _ _
      _ ≤ |lnQ hsl' - exactL rgb| + (|(cQ hsl' - exactD rgb) * (W - 1/2)| +
          |exactD rgb * (W - w₀)|) := by
            linarith [abs_add ((cQ hsl' - exactD rgb) * (W - 1/2))
              (exactD rgb * (W - w₀))]
      _ ≤ 1/200 + ((3/200) * (1/2) + 1 * (1/120)) := by linarith
      _ ≤ 1/48 := by norm_num
  have hdiff : |v - (ch : ℚ)| ≤ 255/48 := by
    rw [hv, hch]
    calc |(lnQ hsl' + cQ hsl' * (W - 1/2)) * 255 -
        (exactL rgb + exactD rgb * (w₀ - 1/2)) * 255|
        = |(lnQ hsl' + cQ hsl' * (W - 1/2)) -
          (exactL rgb + exactD rgb * (w₀ - 1/2))| * 255 := by
            rw [← sub_mul, abs_mul]
            norm_num
      _ ≤ (1/48) * 255 := mul_le_mul_of_nonneg_right key (by norm_num)
      _ ≤ 255/48 := by norm_num
  have h6 : |(jsRound v : ℚ) - (ch : ℚ)| < 6 :=
    calc |(jsRound v : ℚ) - (ch : ℚ)|
        ≤ |(jsRound v : ℚ) - v| + |v - (ch : ℚ)| := abs_sub_le _ _ _
      _ ≤ 1/2 + 255/48 := add_le_add (abs_jsRound_sub v) hdiff
      _ < 6 := by norm_num
  have h6' : ((|jsRound v - ch| : ℤ) : ℚ) < 6 := by
    rw [Int.cast_abs]
    push_cast
    exact h6
  have h6'' : |jsRound v - ch| < 6 := by exact_mod_cast h6'
  omega

/-- **C2 counterexample.** `rgbToHsl` of rgb(120, 0, 1) has hue exactly
360, so the hue is not always in the half-open interval `[0, 360)`. -/
theorem rgbToHsl_hue360_counterexample :
    (rgbToHsl ⟨120, 0, 1⟩).h = 360 ∧ ¬((rgbToHsl ⟨120, 0, 1⟩).h < 360) := by
  have h : rgbToHsl ⟨120, 0, 1⟩ = ⟨360, 100, 24⟩ := by
    simp only [rgbToHsl]
    norm_num [max_def, min_def, jsRound]
  rw [h]
  exact ⟨rfl, by norm_num⟩

/-- **C2 (amended).** For every RGB color with integer channels in
`[0,255]`, the hue returned by `rgbToHsl` lies in the closed interval
`[0, 360]`; the endpoint 360 is attainable. -/
theorem rgbToHsl_hue_range (rgb : RGBColor) (hr0 : 0 ≤ rgb.r)
    (hr1 : rgb.r ≤ 255) (hg0 : 0 ≤ rgb.g) (hg1 : rgb.g ≤ 255)
    (hb0 : 0 ≤ rgb.b) (hb1 : rgb.b ≤ 255) :
    0 ≤ (rgbToHsl rgb).h ∧ (rgbToHsl rgb).h ≤ 360 := by
  by_cases hd : exactD rgb = 0
  · rw [rgbToHsl_eq_achromatic rgb hd]
    exact ⟨le_rfl, by norm_num⟩
  · rw [rgbToHsl_eq_chromatic rgb hd]
    obtain ⟨⟨hH0, hH1⟩, -, -, -⟩ := exact_facts rgb hd
    refine ⟨jsRound_nonneg hH0, jsRound_le_of_le ?_⟩
    push_cast
    linarith

/-- **C2 witness.** -/
theorem rgbToHsl_hue_range_witness :
    0 ≤ (rgbToHsl ⟨120, 0, 1⟩).h ∧ (rgbToHsl ⟨120, 0, 1⟩).h ≤ 360 :=
  rgbToHsl_hue_range ⟨120, 0, 1⟩ (by decide) (by decide) (by decide) (by decide)
    (by decide) (by decide)

/-- **C3 counterexample.** The round trip at rgb(0, 0, 2) returns
rgb(0, 0, 0): the blue channel moves by 2, exceeding the claimed
tolerance of 1. -/
theorem roundTrip_exceeds_one_counterexample :
    ¬(|(hslToRgb (rgbToHsl ⟨0, 0, 2⟩)).b - 2| ≤ 1) := by
  have h1 : rgbToHsl ⟨0, 0, 2⟩ = ⟨240, 100, 0⟩ := by
    simp only [rgbToHsl]
    norm_num [max_def, min_def, jsRound]
  have h2 : hslToRgb ⟨240, 100, 0⟩ = ⟨0, 0, 0⟩ := by
    simp only [hslToRgb]
    norm_num [jsRound, jsMod, jsTrunc]
  rw [h1, h2]
  decide

/-- **C3 (amended).** For every RGB color with integer channels in
`[0,255]`, the round trip `hslToRgb (rgbToHsl rgb)` moves each channel by
at most 5 (and 5 is attained, at rgb(2, 228, 230)). -/
theorem roundTrip_within_five (rgb : RGBColor) (hr0 : 0 ≤ rgb.r)
    (hr1 : rgb.r ≤ 255) (hg0 : 0 ≤ rgb.g) (hg1 : rgb.g ≤ 255)
    (hb0 : 0 ≤ rgb.b) (hb1 : rgb.b ≤ 255) :
    |(hslToRgb (rgbToHsl rgb)).r - rgb.r| ≤ 5 ∧
    |(hslToRgb (rgbToHsl rgb)).g - rgb.g| ≤ 5 ∧
    |(hslToRgb (rgbToHsl rgb)).b - rgb.b| ≤ 5 := by
  obtain ⟨hl0, hl1⟩ := exactL_mem rgb hr0 hr1 hg0 hg1 hb0 hb1
  by_cases hd : exactD rgb = 0
  · -- achromatic: saturation 0, chroma 0
    obtain ⟨hLr, hLg, hLb⟩ := achromatic_channels rgb hd
    rw [rgbToHsl_eq_achromatic rgb hd]
    set L : ℤ := jsRound (exactL rgb * 100) with hLdef
    rw [hslToRgb_closedForm ⟨0, 0, L⟩ (by norm_num) (by norm_num)]
    simp only []
    have hLN : |lnQ ⟨0, 0, L⟩ - exactL rgb| ≤ 1/200 := by
      show |(L : ℚ) / 100 - exactL rgb| ≤ 1/200
      have h := abs_jsRound_sub (exactL rgb * 100)
      rw [show (L : ℚ) / 100 - exactL rgb =
        ((L : ℚ) - exactL rgb * 100) / 100 by ring, abs_div]
      rw [show |(100 : ℚ)| = 100 by norm_num]
      rw [div_le_iff (by norm_num : (0 : ℚ) < 100)]
      rw [hLdef]
      linarith
    have hcz : cQ ⟨0, 0, L⟩ = 0 := by
      unfold cQ snQ
      norm_num
    have hC : |cQ ⟨0, 0, L⟩ - exactD rgb| ≤ 3/200 := by
      rw [hcz, hd]
      norm_num
    refine ⟨?_, ?_, ?_⟩
    · exact roundTrip_channel rgb ⟨0, 0, L⟩ (wR (0 : ℚ)) (wR (0 : ℚ))
        rgb.r hLN hC (le_of_eq hd.symm) (by rw [hd]; norm_num)
        (abs_le.mpr ⟨by linarith [(wR_mem (0 : ℚ)).1],
          by linarith [(wR_mem (0 : ℚ)).2]⟩)
        (by norm_num)
        (by rw [hd]; simp only [zero_mul, add_zero]; exact hLr.symm)
    · exact roundTrip_channel rgb ⟨0, 0, L⟩ (wG (0 : ℚ)) (wG (0 : ℚ))
        rgb.g hLN hC (le_of_eq hd.symm) (by rw [hd]; norm_num)
        (abs_le.mpr ⟨by linarith [(wG_mem (0 : ℚ)).1],
          by linarith [(wG_mem (0 : ℚ)).2]⟩)
        (by norm_num)
        (by rw [hd]; simp only [zero_mul, add_zero]; exact hLg.symm)
    · exact roundTrip_channel rgb ⟨0, 0, L⟩ (wB (0 : ℚ)) (wB (0 : ℚ))
        rgb.b hLN hC (le_of_eq hd.symm) (by rw [hd]; norm_num)
        (abs_le.mpr ⟨by linarith [(wB_mem (0 : ℚ)).1],
          by linarith [(wB_mem (0 : ℚ)).2]⟩)
        (by norm_num)
        (by rw [hd]; simp only [zero_mul, add_zero]; exact hLb.symm)
  · -- chromatic
    obtain ⟨⟨hH0, hH1⟩, hinvR, hinvG, hinvB⟩ := exact_facts rgb hd
    obtain ⟨hs0, hs1⟩ := exactS_mem rgb hr0 hr1 hg0 hg1 hb0 hb1 hd
    obtain ⟨hd0, hd1'⟩ := exactD_mem rgb hr0 hr1 hg0 hg1 hb0 hb1
    have hcEq := exactC_eq rgb hr0 hr1 hg0 hg1 hb0 hb1 hd
    rw [rgbToHsl_eq_chromatic rgb hd]
    set H : ℤ := jsRound (exactH rgb) with hHdef
    set S : ℤ := jsRound (exactS rgb * 100) with hSdef
    set L : ℤ := jsRound (exactL rgb * 100) with hLdef
    have hHlo : 0 ≤ H := jsRound_nonneg hH0
    have hHhi : H ≤ 360 := by
      rw [hHdef]
      apply jsRound_le_of_le
      push_cast
      linarith
    rw [hslToRgb_closedForm ⟨H, S, L⟩ hHlo hHhi]
    simp only []
    have hL0 : 0 ≤ L := by
      rw [hLdef]
      exact jsRound_nonneg (by nlinarith)
    have hL100 : L ≤ 100 := by
      rw [hLdef]
      apply jsRound_le_of_le
      push_cast
      nlinarith
    have hS0 : 0 ≤ S := by
      rw [hSdef]
      exact jsRound_nonneg (by nlinarith)
    have hS100 : S ≤ 100 := by
      rw [hSdef]
      apply jsRound_le_of_le
      push_cast
      nlinarith
    have hLN : |lnQ ⟨H, S, L⟩ - exactL rgb| ≤ 1/200 := by
      show |(L : ℚ) / 100 - exactL rgb| ≤ 1/200
      have h := abs_jsRound_sub (exactL rgb * 100)
      rw [show (L : ℚ) / 100 - exactL rgb =
        ((L : ℚ) - exactL rgb * 100) / 100 by ring, abs_div]
      rw [show |(100 : ℚ)| = 100 by norm_num]
      rw [div_le_iff (by norm_num : (0 : ℚ) < 100)]
      rw [hLdef]
      linarith
    have hSN : |snQ ⟨H, S, L⟩ - exactS rgb| ≤ 1/200 := by
      show |(S : ℚ) / 100 - exactS rgb| ≤ 1/200
      have h := abs_jsRound_sub (exactS rgb * 100)
      rw [show (S : ℚ) / 100 - exactS rgb =
        ((S : ℚ) - exactS rgb * 100) / 100 by ring, abs_div]
      rw [show |(100 : ℚ)| = 100 by norm_num]
      rw [div_le_iff (by norm_num : (0 : ℚ) < 100)]
      rw [hSdef]
      linarith
    have hLNmem : 0 ≤ lnQ ⟨H, S, L⟩ ∧ lnQ ⟨H, S, L⟩ ≤ 1 := by
      constructor
      · show (0 : ℚ) ≤ (L : ℚ) / 100
        positivity
      · show (L : ℚ) / 100 ≤ 1
        rw [div_le_one (by norm_num)]
        exact_mod_cast hL100
    have hSNmem : 0 ≤ snQ ⟨H, S, L⟩ ∧ snQ ⟨H, S, L⟩ ≤ 1 := by
      constructor
      · show (0 : ℚ) ≤ (S : ℚ) / 100
        positivity
      · show (S : ℚ) / 100 ≤ 1
        rw [div_le_one (by norm_num)]
        exact_mod_cast hS100
    have hC : |cQ ⟨H, S, L⟩ - exactD rgb| ≤ 3/200 := by
      rw [← hcEq]
      set A : ℚ := |2 * lnQ ⟨H, S, L⟩ - 1| with hAdef
      set B : ℚ := |2 * exactL rgb - 1| with hBdef
      have hA0 : 0 ≤ A := abs_nonneg _
      have hA1 : A ≤ 1 := by
        rw [hAdef]
        rw [abs_le]
        constructor <;> linarith [hLNmem.1, hLNmem.2]
      have hB0 : 0 ≤ B := abs_nonneg _
      have hAB : |B - A| ≤ 2 * |lnQ ⟨H, S, L⟩ - exactL rgb| := by
        rw [hAdef, hBdef]
        calc |(|2 * exactL rgb - 1|) - (|2 * lnQ ⟨H, S, L⟩ - 1|)|
            ≤ |(2 * exactL rgb - 1) - (2 * lnQ ⟨H, S, L⟩ - 1)| :=
              abs_abs_sub_abs_le_abs_sub _ _
          _ = 2 * |lnQ ⟨H, S, L⟩ - exactL rgb| := by
              rw [show (2 * exactL rgb - 1) - (2 * lnQ ⟨H, S, L⟩ - 1) =
                2 * (exactL rgb - lnQ ⟨H, S, L⟩) by ring, abs_mul,
                abs_sub_comm]
              norm_num
      have e1 : (1 - A) * snQ ⟨H, S, L⟩ - (1 - B) * exactS rgb =
          (1 - A) * (snQ ⟨H, S, L⟩ - exactS rgb) + (B - A) * exactS rgb := by
        ring
      show |(1 - A) * snQ ⟨H, S, L⟩ - (1 - B) * exactS rgb| ≤ 3/200
      rw [e1]
      have t1 : |(1 - A) * (snQ ⟨H, S, L⟩ - exactS rgb)| ≤ 1 * (1/200) := by
        rw [abs_mul, abs_of_nonneg (by linarith : (0 : ℚ) ≤ 1 - A)]
        exact mul_le_mul (by linarith) hSN (abs_nonneg _) (by norm_num)
      have t2 : |(B - A) * exactS rgb| ≤ (2 * (1/200)) * 1 := by
        rw [abs_mul, abs_of_nonneg hs0]
        exact mul_le_mul (by linarith [hAB, hLN]) hs1 hs0 (by norm_num)
      calc |(1 - A) * (snQ ⟨H, S, L⟩ - exactS rgb) + (B - A) * exactS rgb|
          ≤ |(1 - A) * (snQ ⟨H, S, L⟩ - exactS rgb)| +
            |(B - A) * exactS rgb| := abs_add _ _
        _ ≤ 1 * (1/200) + (2 * (1/200)) * 1 := add_le_add t1 t2
        _ ≤ 3/200 := by norm_num
    have hHq : |((H : ℤ) : ℚ) - exactH rgb| ≤ 1/2 := by
      rw [hHdef]
      exact abs_jsRound_sub _
    have hwdiv : |((H : ℤ) : ℚ) - exactH rgb| / 60 ≤ 1/120 := by
      rw [div_le_iff (by norm_num : (0 : ℚ) < 60)]
      linarith
    refine ⟨?_, ?_, ?_⟩
    · exact roundTrip_channel rgb ⟨H, S, L⟩ (wR ((H : ℤ) : ℚ))
        (wR (exactH rgb)) rgb.r hLN hC hd0 hd1'
        (abs_le.mpr ⟨by linarith [(wR_mem ((H : ℤ) : ℚ)).1],
          by linarith [(wR_mem ((H : ℤ) : ℚ)).2]⟩)
        (le_trans (wR_lipschitz _ _) hwdiv) hinvR
    · exact roundTrip_channel rgb ⟨H, S, L⟩ (wG ((H : ℤ) : ℚ))
        (wG (exactH rgb)) rgb.g hLN hC hd0 hd1'
        (abs_le.mpr ⟨by linarith [(wG_mem ((H : ℤ) : ℚ)).1],
          by linarith [(wG_mem ((H : ℤ) : ℚ)).2]⟩)
        (le_trans (wG_lipschitz _ _) hwdiv) hinvG
    · exact roundTrip_channel rgb ⟨H, S, L⟩ (wB ((H : ℤ) : ℚ))
        (wB (exactH rgb)) rgb.b hLN hC hd0 hd1'
        (abs_le.mpr ⟨by linarith [(wB_mem ((H : ℤ) : ℚ)).1],
          by linarith [(wB_mem ((H : ℤ) : ℚ)).2]⟩)
        (le_trans (wB_lipschitz _ _) hwdiv) hinvB

/-- **C3 witness.** -/
theorem roundTrip_within_five_witness :
    |(hslToRgb (rgbToHsl ⟨108, 92, 231⟩)).r - 108| ≤ 5 ∧
    |(hslToRgb (rgbToHsl ⟨108, 92, 231⟩)).g - 92| ≤ 5 ∧
    |(hslToRgb (rgbToHsl ⟨108, 92, 231⟩)).b - 231| ≤ 5 :=
  roundTrip_within_five ⟨108, 92, 231⟩ (by decide) (by decide) (by decide)
    (by decide) (by decide) (by decide)

/-! ## WCAG contrast (claim C6) -/

theorem linearize_mem (c : ℤ) (h0 : 0 ≤ c) (h1 : c ≤ 255) :
    0 ≤ linearize c ∧ linearize c ≤ 1 := by
  simp only [linearize]
  have hs0 : (0 : ℝ) ≤ (c : ℝ) / 255 := by
    apply div_nonneg _ (by norm_num)
    exact_mod_cast h0
  have hs1 : (c : ℝ) / 255 ≤ 1 := by
    rw [div_le_one (by norm_num)]
    exact_mod_cast h1
  split_ifs with h
  · constructor
    · positivity
    · calc (c : ℝ) / 255 / 12.92 ≤ 1 / 12.92 := by gcongr
        _ ≤ 1 := by norm_num
  · constructor
    · exact Real.rpow_nonneg (by positivity) _
    · apply Real.rpow_le_one (by positivity) ?_ (by norm_num)
      rw [div_le_one (by norm_num)]
      linarith

theorem relativeLuminance_mem (rgb : RGBColor) (hr0 : 0 ≤ rgb.r)
    (hr1 : rgb.r ≤ 255) (hg0 : 0 ≤ rgb.g) (hg1 : rgb.g ≤ 255)
    (hb0 : 0 ≤ rgb.b) (hb1 : rgb.b ≤ 255) :
    0 ≤ relativeLuminance rgb ∧ relativeLuminance rgb ≤ 1 := by
  obtain ⟨h1, h2⟩ := linearize_mem rgb.r hr0 hr1
  obtain ⟨h3, h4⟩ := linearize_mem rgb.g hg0 hg1
  obtain ⟨h5, h6⟩ := linearize_mem rgb.b hb0 hb1
  unfold relativeLuminance
  constructor <;> nlinarith

/-- **C6.** For every pair of in-range RGB colors, `contrastRatio` is
symmetric and lies in `[1, 21]`. -/
theorem contrastRatio_symm_range (a b : RGBColor)
    (ha1 : 0 ≤ a.r) (ha2 : a.r ≤ 255) (ha3 : 0 ≤ a.g) (ha4 : a.g ≤ 255)
    (ha5 : 0 ≤ a.b) (ha6 : a.b ≤ 255)
    (hb1 : 0 ≤ b.r) (hb2 : b.r ≤ 255) (hb3 : 0 ≤ b.g) (hb4 : b.g ≤ 255)
    (hb5 : 0 ≤ b.b) (hb6 : b.b ≤ 255) :
    contrastRatio a b = contrastRatio b a ∧
    1 ≤ contrastRatio a b ∧ contrastRatio a b ≤ 21 := by
  obtain ⟨hla0, hla1⟩ := relativeLuminance_mem a ha1 ha2 ha3 ha4 ha5 ha6
  obtain ⟨hlb0, hlb1⟩ := relativeLuminance_mem b hb1 hb2 hb3 hb4 hb5 hb6
  simp only [contrastRatio]
  have hmin0 : (0 : ℝ) ≤ min (relativeLuminance a) (relativeLuminance b) :=
    le_min hla0 hlb0
  have hmax1 : max (relativeLuminance a) (relativeLuminance b) ≤ 1 :=
    max_le hla1 hlb1
  have hminmax : min (relativeLuminance a) (relativeLuminance b) ≤
      max (relativeLuminance a) (relativeLuminance b) :=
    (min_le_left _ _).trans (le_max_left _ _)
  have hpos : (0 : ℝ) < min (relativeLuminance a) (relativeLuminance b) + 0.05 := by
    norm_num
    linarith
  refine ⟨by rw [max_comm, min_comm], ?_, ?_⟩
  · rw [le_div_iff hpos]
    norm_num
  · rw [div_le_iff hpos]
    norm_num
    linarith

/-- **C6 witness.** -/
theorem contrastRatio_symm_range_witness :
    contrastRatio ⟨255, 255, 255⟩ ⟨0, 0, 0⟩ =
      contrastRatio ⟨0, 0, 0⟩ ⟨255, 255, 255⟩ ∧
    1 ≤ contrastRatio ⟨255, 255, 255⟩ ⟨0, 0, 0⟩ ∧
    contrastRatio ⟨255, 255, 255⟩ ⟨0, 0, 0⟩ ≤ 21 :=
  contrastRatio_symm_range ⟨255, 255, 255⟩ ⟨0, 0, 0⟩ (by decide) (by decide)
    (by decide) (by decide) (by decide) (by decide) (by decide) (by decide)
    (by decide) (by decide) (by decide) (by decide)

/-! ## Canonical hex outputs (claim C9) -/

theorem char_le_iff (a b : Char) : a ≤ b ↔ a.toNat ≤ b.toNat := by
  exact_mod_cast Iff.rfl

theorem hexChar_isLower (d : ℕ) (h : d < 16) :
    isLowerHexDigit (hexChar d) = true := by
  have key : ∀ d : Fin 16, isLowerHexDigit (hexChar (d : ℕ)) = true := by decide
  exact key ⟨d, h⟩

theorem isCanonicalHex_mk (l : List Char) (h6 : l.length = 6)
    (hall : ∀ c ∈ l, isLowerHexDigit c = true) :
    isCanonicalHex (String.mk ('#' :: l)) = true := by
  show ((l.length == 6) && l.all isLowerHexDigit) = true
  rw [h6]
  simp only [beq_self_eq_true, Bool.true_and, List.all_eq_true]
  exact hall

/-- `rgbToHex` of in-range channels is canonical hex. -/
theorem rgbToHex_canonical (rgb : RGBColor) (hr0 : 0 ≤ rgb.r)
    (hr1 : rgb.r ≤ 255) (hg0 : 0 ≤ rgb.g) (hg1 : rgb.g ≤ 255)
    (hb0 : 0 ≤ rgb.b) (hb1 : rgb.b ≤ 255) :
    isCanonicalHex (rgbToHex rgb) = true := by
  have er := toHex_eq_pair rgb.r hr0 hr1
  have eg := toHex_eq_pair rgb.g hg0 hg1
  have eb := toHex_eq_pair rgb.b hb0 hb1
  unfold rgbToHex
  rw [er, eg, eb]
  apply isCanonicalHex_mk
  · simp
  · intro c hc
    simp only [List.append_assoc, List.cons_append, List.nil_append,
      List.mem_cons, List.not_mem_nil, or_false] at hc
    rcases hc with h | h | h | h | h | h <;>
      · subst h
        exact hexChar_isLower _ (by omega)

theorem hexMatch_spec {cs body : List Char} (h : hexMatch? cs = some body) :
    (body.length = 3 ∨ body.length = 6) ∧ ∀ c ∈ body, isHexDigitChar c = true := by
  simp only [hexMatch?] at h
  split_ifs at h with hcond
  obtain ⟨h1, h2⟩ := hcond
  injection h with h
  subst h
  exact ⟨h1, by simpa [List.all_eq_true] using h2⟩

theorem expandHex_spec {body : List Char}
    (hlen : body.length = 3 ∨ body.length = 6)
    (hall : ∀ c ∈ body, isHexDigitChar c = true) :
    (expandHex body).length = 6 ∧ ∀ c ∈ expandHex body, isHexDigitChar c = true := by
  rcases hlen with h3 | h6
  · match body, h3 with
    | [c0, c1, c2], _ =>
      refine ⟨rfl, ?_⟩
      intro c hc
      simp only [expandHex, List.mem_cons, List.not_mem_nil, or_false] at hc
      rcases hc with h | h | h | h | h | h <;>
        · subst h
          exact hall _ (by simp)
  · match body, h6 with
    | [c0, c1, c2, c3, c4, c5], _ => exact ⟨rfl, hall⟩

/-- Lowercasing a hex digit yields a lowercase hex digit. -/
theorem isHexDigitChar_toLower {c : Char} (h : isHexDigitChar c = true) :
    isLowerHexDigit c.toLower = true := by
  have hb : c.toNat < 128 := by
    unfold isHexDigitChar at h
    simp only [Bool.or_eq_true, Bool.and_eq_true, decide_eq_true_eq,
      char_le_iff] at h
    have e0 : ('0').toNat = 48 := rfl
    have e9 : ('9').toNat = 57 := rfl
    have ea : ('a').toNat = 97 := rfl
    have ef : ('f').toNat = 102 := rfl
    have eA : ('A').toNat = 65 := rfl
    have eF : ('F').toNat = 70 := rfl
    omega
  have key : ∀ n : Fin 128, isHexDigitChar (Char.ofNat (n : ℕ)) = true →
      isLowerHexDigit (Char.ofNat (n : ℕ)).toLower = true := by decide
  have := key ⟨c.toNat, hb⟩
  rw [Char.ofNat_toNat] at this
  exact this h

/-- `parseColor` only returns canonical hex. -/
theorem parseColor_ok_canonical (s out : String)
    (h : parseColor s = .ok out) : isCanonicalHex out = true := by
  simp only [parseColor] at h
  cases hhex : hexMatch? (trimList s.toList) with
  | some body =>
    rw [hhex] at h
    simp only [] at h
    injection h with h
    subst h
    obtain ⟨hlen, hall⟩ := hexMatch_spec hhex
    obtain ⟨hlen6, hall6⟩ := expandHex_spec hlen hall
    apply isCanonicalHex_mk
    · simpa using hlen6
    · intro c hc
      obtain ⟨c', hc', rfl⟩ := List.mem_map.mp hc
      exact isHexDigitChar_toLower (hall6 c' hc')
  | none =>
    rw [hhex] at h
    simp only [] at h
    cases hrgb : funcMatch? ['r', 'g', 'b'] false (trimList s.toList) with
    | some v =>
      obtain ⟨r, g, b⟩ := v
      rw [hrgb] at h
      simp only [] at h
      injection h with h
      subst h
      apply rgbToHex_canonical <;>
        simp [le_min_iff, min_le_left, Int.natCast_nonneg]
    | none =>
      rw [hrgb] at h
      simp only [] at h
      cases hhsl : funcMatch? ['h', 's', 'l'] true (trimList s.toList) with
      | some v =>
        obtain ⟨hh, sv, lv⟩ := v
        rw [hhsl] at h
        simp only [] at h
        injection h with h
        subst h
        have hr := hslToRgb_range ⟨min 360 (hh : ℤ), min 100 (sv : ℤ), min 100 (lv : ℤ)⟩
          (by simp [le_min_iff, Int.natCast_nonneg]) (by simp [min_le_left])
          (by simp [le_min_iff, Int.natCast_nonneg]) (by simp [min_le_left])
          (by simp [le_min_iff, Int.natCast_nonneg]) (by simp [min_le_left])
        exact rgbToHex_canonical _ hr.1 hr.2.1 hr.2.2.1 hr.2.2.2.1 hr.2.2.2.2.1
          hr.2.2.2.2.2
      | none =>
        rw [hhsl] at h
        exact Except.noConfusion h

/-- **C9.** Every hex string the core produces is canonical: a successful
`parseColor` returns `#` plus six lowercase hex digits, and so does
`rgbToHex` on any in-range channel triple. -/
theorem canonicalHex_outputs :
    (∀ s out : String, parseColor s = .ok out → isCanonicalHex out = true) ∧
    (∀ rgb : RGBColor, 0 ≤ rgb.r → rgb.r ≤ 255 → 0 ≤ rgb.g → rgb.g ≤ 255 →
      0 ≤ rgb.b → rgb.b ≤ 255 → isCanonicalHex (rgbToHex rgb) = true) :=
  ⟨parseColor_ok_canonical, fun rgb h1 h2 h3 h4 h5 h6 =>
    rgbToHex_canonical rgb h1 h2 h3 h4 h5 h6⟩

/-- **C9 witness.** -/
theorem canonicalHex_outputs_witness :
    isCanonicalHex "#66ccee" = true ∧
    isCanonicalHex (rgbToHex ⟨108, 92, 231⟩) = true :=
  ⟨canonicalHex_outputs.1 "6CE" "#66ccee" (by decide),
    canonicalHex_outputs.2 ⟨108, 92, 231⟩ (by decide) (by decide) (by decide)
      (by decide) (by decide) (by decide)⟩

/-! ## Palette generation (claims C8 and C10) -/

theorem generateGo_length (locked : List (String × String)) (rand : ℕ → ℚ) :
    ∀ n i hue k, (generateGo locked rand n i hue k).length = n := by
  intro n
  induction n with
  | zero => intro i hue k; rfl
  | succ m ih =>
    intro i hue k
    simp only [generateGo]
    split_ifs <;> simp [ih]

theorem generateGo_locked_get (locked : List (String × String)) (rand : ℕ → ℚ)
    (v : String) (hv : v ≠ "") :
    ∀ n i0 hue k j, j < n →
      List.lookup (toString (i0 + j)) locked = some v →
      (generateGo locked rand n i0 hue k)[j]? = some v := by
  intro n
  induction n with
  | zero => intro i0 hue k j hj; omega
  | succ m ih =>
    intro i0 hue k j hj hlook
    simp only [generateGo]
    cases j with
    | zero =>
      rw [Nat.add_zero] at hlook
      rw [hlook]
      have htr : jsTruthy (some v) = true := by simp [jsTruthy, hv]
      simp [htr]
    | succ jj =>
      have hlook' : List.lookup (toString ((i0 + 1) + jj)) locked = some v := by
        rw [show (i0 + 1) + jj = i0 + (jj + 1) by omega]
        exact hlook
      split_ifs with htr
      · simp only [List.getElem?_cons_succ]
        exact ih (i0 + 1) hue k jj (by omega) hlook'
      · simp only [List.getElem?_cons_succ]
        exact ih (i0 + 1) _ (k + 2) jj (by omega) hlook'

theorem mem_of_lookup {l : List (String × String)} {key v : String}
    (h : List.lookup key l = some v) : (key, v) ∈ l := by
  induction l with
  | nil => exact absurd h (by simp)
  | cons kv rest ih =>
    obtain ⟨k, w⟩ := kv
    simp only [List.lookup] at h
    cases hbeq : key == k with
    | true =>
      rw [hbeq] at h
      injection h with h
      subst h
      have : key = k := by simpa using hbeq
      subst this
      exact List.mem_cons_self _ _
    | false =>
      rw [hbeq] at h
      exact List.mem_cons_of_mem _ (ih h)

/-- **C8.** `generatePalette` returns exactly `count` colors, and when the
lock map's entries are canonical hex strings every locked position is
emitted unchanged, whatever the random draws. -/
theorem generatePalette_length_locks (count : ℕ)
    (locked : List (String × String)) (rand : ℕ → ℚ)
    (hcanon : ∀ kv ∈ locked, isCanonicalHex kv.2 = true) :
    (generatePalette count locked rand).length = count ∧
    ∀ i v, i < count → List.lookup (toString i) locked = some v →
      (generatePalette count locked rand)[i]? = some v := by
  constructor
  · exact generateGo_length locked rand count 0 (rand 0 * 360) 1
  · intro i v hi hlook
    have hmem : (toString i, v) ∈ locked := mem_of_lookup hlook
    have hcv : isCanonicalHex v = true := hcanon _ hmem
    have hv : v ≠ "" := by
      intro hempty
      rw [hempty] at hcv
      exact absurd hcv (by decide)
    have := generateGo_locked_get locked rand v hv count 0 (rand 0 * 360) 1 i hi
      (by simpa using hlook)
    simpa [generatePalette] using this

/-- **C8 witness** (the spec's example lock map, with a constant stream
standing for the random draws). -/
theorem generatePalette_length_locks_witness :
    (generatePalette 5 [("0", "#6c5ce7"), ("2", "#00cec9")] (fun _ => 0)).length = 5 ∧
    (generatePalette 5 [("0", "#6c5ce7"), ("2", "#00cec9")] (fun _ => 0))[0]? =
      some "#6c5ce7" ∧
    (generatePalette 5 [("0", "#6c5ce7"), ("2", "#00cec9")] (fun _ => 0))[2]? =
      some "#00cec9" := by
  have T := generatePalette_length_locks 5 [("0", "#6c5ce7"), ("2", "#00cec9")]
    (fun _ => 0) (by decide)
  exact ⟨T.1, T.2 0 "#6c5ce7" (by decide) (by decide),
    T.2 2 "#00cec9" (by decide) (by decide)⟩

theorem lookup_eq_none_of_not_mem {l : List (String × String)} {key : String}
    (h : key ∉ l.map Prod.fst) : List.lookup key l = none := by
  induction l with
  | nil => rfl
  | cons kv rest ih =>
    obtain ⟨k, w⟩ := kv
    simp only [List.map_cons, List.mem_cons] at h
    push_neg at h
    simp only [List.lookup]
    have hbeq : (key == k) = false := beq_eq_false_iff_ne.mpr h.1
    rw [hbeq]
    exact ih h.2

theorem lookup_filter_empty (locked : List (String × String))
    (hnd : (locked.map Prod.fst).Nodup) (key : String) :
    List.lookup key (locked.filter fun kv => kv.2 != "") =
      (List.lookup key locked).bind fun v => if v = "" then none else some v := by
  induction locked with
  | nil => rfl
  | cons kv rest ih =>
    obtain ⟨k, w⟩ := kv
    simp only [List.map_cons, List.nodup_cons] at hnd
    obtain ⟨hk, hnd'⟩ := hnd
    by_cases hw : w = ""
    · subst hw
      have hfc : List.filter (fun kv => kv.2 != "") ((k, "") :: rest) =
          List.filter (fun kv => kv.2 != "") rest := by
        simp [List.filter_cons]
      rw [hfc, ih hnd']
      simp only [List.lookup]
      cases hbeq : key == k with
      | true =>
        have hkey : key = k := by simpa using hbeq
        subst hkey
        rw [lookup_eq_none_of_not_mem hk]
        simp
      | false => rfl
    · have hfc : List.filter (fun kv => kv.2 != "") ((k, w) :: rest) =
          (k, w) :: List.filter (fun kv => kv.2 != "") rest := by
        simp [List.filter_cons, hw]
      rw [hfc]
      simp only [List.lookup]
      cases hbeq : key == k with
      | true => simp [hw]
      | false => exact ih hnd'

theorem generateGo_filter (locked : List (String × String))
    (hnd : (locked.map Prod.fst).Nodup) (rand : ℕ → ℚ) :
    ∀ n i hue k,
      generateGo (locked.filter fun kv => kv.2 != "") rand n i hue k =
      generateGo locked rand n i hue k := by
  intro n
  induction n with
  | zero => intro i hue k; rfl
  | succ m ih =>
    intro i hue k
    simp only [generateGo]
    rw [lookup_filter_empty locked hnd (toString i)]
    cases hv : List.lookup (toString i) locked with
    | none => simp [jsTruthy, ih]
    | some v =>
      by_cases hw : v = ""
      · subst hw
        simp [jsTruthy, ih]
      · simp [jsTruthy, hw, ih]

/-- **C10.** A lock entry holding the empty string is falsy, so the
generator treats the position exactly as if the entry were absent:
deleting all empty-string entries leaves the palette unchanged (for every
count and random stream). -/
theorem generatePalette_empty_lock_unlocked (count : ℕ)
    (locked : List (String × String)) (rand : ℕ → ℚ)
    (hnd : (locked.map Prod.fst).Nodup) :
    generatePalette count locked rand =
      generatePalette count (locked.filter fun kv => kv.2 != "") rand := by
  unfold generatePalette
  exact (generateGo_filter locked hnd rand count 0 (rand 0 * 360) 1).symm

/-- **C10 witness.** A palette with only an empty-string lock equals the
palette with no locks at all. -/
theorem generatePalette_empty_lock_unlocked_witness :
    generatePalette 2 [("0", "")] (fun _ => 0) =
      generatePalette 2 ([] : List (String × String)) (fun _ => 0) := by
  have := generatePalette_empty_lock_unlocked 2 [("0", "")] (fun _ => 0)
    (by decide)
  simpa using this

/-! ## Parser correctness (claims C4 and C7) -/

theorem takeWhile_dropWhile_split {p : Char → Bool} (w rest : List Char)
    (hw : ∀ c ∈ w, p c = true)
    (hr : ∀ x, rest.head? = some x → p x = false) :
    (w ++ rest).takeWhile p = w ∧ (w ++ rest).dropWhile p = rest := by
  induction w with
  | nil =>
    cases rest with
    | nil => exact ⟨rfl, rfl⟩
    | cons x xs =>
      have hx := hr x rfl
      simp [List.takeWhile_cons, List.dropWhile_cons, hx]
  | cons a as ih =>
    have hpa := hw a (List.mem_cons_self a as)
    have ih' := ih (fun c hc => hw c (List.mem_cons_of_mem a hc))
    simp [List.takeWhile_cons, List.dropWhile_cons, hpa, ih'.1, ih'.2]

theorem not_ws_of_digit {c : Char} (h : c.isDigit = true) : isWs c = false := by
  cases hws : isWs c with
  | false => rfl
  | true =>
    exfalso
    unfold isWs at hws
    simp only [Char.isWhitespace, Bool.or_eq_true, decide_eq_true_eq] at hws
    obtain ((rfl | rfl) | rfl) | rfl := hws <;> exact absurd h (by decide)

theorem not_digit_of_ws {c : Char} (h : isWs c = true) : c.isDigit = false := by
  cases hd : c.isDigit with
  | false => rfl
  | true =>
    exfalso
    unfold isWs at h
    simp only [Char.isWhitespace, Bool.or_eq_true, decide_eq_true_eq] at h
    obtain ((rfl | rfl) | rfl) | rfl := h <;> exact absurd hd (by decide)

theorem ne_pct_of_ws {c : Char} (h : isWs c = true) : c ≠ '%' := by
  intro hc
  subst hc
  exact absurd h (by decide)

theorem expectTagCI_append (t rest : List Char) :
    expectTagCI (t.map Char.toLower) (t ++ rest) = some rest := by
  induction t with
  | nil => rfl
  | cons a as ih => simp [expectTagCI, ih]

theorem expectTagCI_some {tag cs rest : List Char}
    (h : expectTagCI tag cs = some rest) :
    ∃ t, cs = t ++ rest ∧ t.map Char.toLower = tag := by
  induction tag generalizing cs with
  | nil =>
    refine ⟨[], ?_, rfl⟩
    simpa [expectTagCI] using h
  | cons a as ih =>
    cases cs with
    | nil => exact absurd h (by simp [expectTagCI])
    | cons x xs =>
      simp only [expectTagCI] at h
      split_ifs at h with hx
      obtain ⟨t, ht1, ht2⟩ := ih h
      exact ⟨x :: t, by simp [ht1], by simp [ht2, hx]⟩

theorem expectChar_cons (c : Char) (rest : List Char) :
    expectChar c (c :: rest) = some rest := by
  simp [expectChar]

theorem expectChar_some {c : Char} {cs rest : List Char}
    (h : expectChar c cs = some rest) : cs = c :: rest := by
  cases cs with
  | nil => exact absurd h (by simp [expectChar])
  | cons x xs =>
    simp only [expectChar] at h
    split_ifs at h with hx
    injection h with h
    rw [hx, h]

theorem digits13_some {cs : List Char} {n : ℕ} {rest : List Char}
    (h : digits13? cs = some (n, rest)) :
    ∃ d, cs = d ++ rest ∧ IsDigits13 d ∧ decimalVal d = n := by
  simp only [digits13?] at h
  split_ifs at h with hlen
  rw [Option.some_inj, Prod.mk.injEq] at h
  obtain ⟨h1, h2⟩ := h
  refine ⟨cs.takeWhile Char.isDigit, ?_, ⟨hlen, ?_⟩, h1⟩
  · rw [← h2]
    exact (List.takeWhile_append_dropWhile Char.isDigit cs).symm
  · intro c hc
    exact List.mem_takeWhile_imp hc

theorem digits13_complete {d rest : List Char} (hd : IsDigits13 d)
    (hr : ∀ x, rest.head? = some x → x.isDigit = false) :
    digits13? (d ++ rest) = some (decimalVal d, rest) := by
  obtain ⟨⟨h1, h3⟩, hall⟩ := hd
  obtain ⟨ht, hdr⟩ := takeWhile_dropWhile_split d rest hall hr
  simp only [digits13?, ht, hdr]
  rw [if_pos ⟨h1, h3⟩]

theorem skipPercent_split (cs : List Char) :
    ∃ p, cs = p ++ skipPercent cs ∧ (p = [] ∨ p = ['%']) := by
  cases cs with
  | nil => exact ⟨[], rfl, Or.inl rfl⟩
  | cons x xs =>
    by_cases hx : x = '%'
    · subst hx
      exact ⟨['%'], by simp [skipPercent], Or.inr rfl⟩
    · exact ⟨[], by simp [skipPercent, hx], Or.inl rfl⟩

theorem skipPercent_ws_comma (w X : List Char) (hw : IsWsRun w) :
    skipPercent (w ++ ',' :: X) = w ++ ',' :: X := by
  cases w with
  | nil => simp [skipPercent]
  | cons c cs =>
    have := ne_pct_of_ws (hw c (List.mem_cons_self c cs))
    simp [skipPercent, this]

theorem skipPercent_ws_rpar (w : List Char) (hw : IsWsRun w) :
    skipPercent (w ++ [')']) = w ++ [')'] := by
  cases w with
  | nil => simp [skipPercent]
  | cons c cs =>
    have := ne_pct_of_ws (hw c (List.mem_cons_self c cs))
    simp [skipPercent, this]

theorem head_not_digit_ws_comma (w X : List Char) (hw : IsWsRun w) :
    ∀ x, (w ++ ',' :: X).head? = some x → x.isDigit = false := by
  intro x hx
  cases w with
  | nil =>
    simp only [List.nil_append, List.head?_cons, Option.some_inj] at hx
    subst hx
    decide
  | cons c cs =>
    simp only [List.cons_append, List.head?_cons, Option.some_inj] at hx
    subst hx
    exact not_digit_of_ws (hw _ (List.mem_cons_self _ _))

theorem head_not_digit_ws_rpar (w : List Char) (hw : IsWsRun w) :
    ∀ x, (w ++ [')']).head? = some x → x.isDigit = false := by
  intro x hx
  cases w with
  | nil =>
    simp only [List.nil_append, List.head?_cons, Option.some_inj] at hx
    subst hx
    decide
  | cons c cs =>
    simp only [List.cons_append, List.head?_cons, Option.some_inj] at hx
    subst hx
    exact not_digit_of_ws (hw _ (List.mem_cons_self _ _))

theorem dropWhile_ws_comma (w X : List Char) (hw : IsWsRun w) :
    (w ++ ',' :: X).dropWhile isWs = ',' :: X := by
  refine (takeWhile_dropWhile_split w (',' :: X) hw ?_).2
  intro x hx
  simp only [List.head?_cons, Option.some_inj] at hx
  subst hx
  decide

theorem dropWhile_ws_rpar (w : List Char) (hw : IsWsRun w) :
    (w ++ [')']).dropWhile isWs = [')'] := by
  refine (takeWhile_dropWhile_split w [')'] hw ?_).2
  intro x hx
  simp only [List.head?_cons, Option.some_inj] at hx
  subst hx
  decide

theorem dropWhile_ws_digits (w d X : List Char) (hw : IsWsRun w)
    (hd : IsDigits13 d) :
    (w ++ (d ++ X)).dropWhile isWs = d ++ X := by
  refine (takeWhile_dropWhile_split w (d ++ X) hw ?_).2
  intro x hx
  obtain ⟨⟨h1, -⟩, hall⟩ := hd
  cases d with
  | nil => simp at h1
  | cons c cs =>
    simp only [List.cons_append, List.head?_cons, Option.some_inj] at hx
    subst hx
    exact not_ws_of_digit (hall _ (List.mem_cons_self _ _))

theorem head_not_digit_pct_comma {optP : Bool} (p w X : List Char)
    (hp : IsOptPercent optP p) (hw : IsWsRun w) :
    ∀ x, (p ++ (w ++ ',' :: X)).head? = some x → x.isDigit = false := by
  rcases hp with rfl | ⟨-, rfl⟩
  · simpa using head_not_digit_ws_comma w X hw
  · intro x hx
    simp only [List.cons_append, List.nil_append, List.head?_cons,
      Option.some_inj] at hx
    subst hx
    decide

theorem head_not_digit_pct_rpar {optP : Bool} (p w : List Char)
    (hp : IsOptPercent optP p) (hw : IsWsRun w) :
    ∀ x, (p ++ (w ++ [')'])).head? = some x → x.isDigit = false := by
  rcases hp with rfl | ⟨-, rfl⟩
  · simpa using head_not_digit_ws_rpar w hw
  · intro x hx
    simp only [List.cons_append, List.nil_append, List.head?_cons,
      Option.some_inj] at hx
    subst hx
    decide

theorem skip_opt_pct_comma {optP : Bool} (p w X : List Char)
    (hp : IsOptPercent optP p) (hw : IsWsRun w) :
    (if optP then skipPercent (p ++ (w ++ ',' :: X))
      else (p ++ (w ++ ',' :: X))) = w ++ ',' :: X := by
  rcases hp with rfl | ⟨rfl, rfl⟩
  · simp only [List.nil_append]
    cases optP with
    | false => rfl
    | true => simpa using skipPercent_ws_comma w X hw
  · simp [skipPercent]

theorem skip_opt_pct_rpar {optP : Bool} (p w : List Char)
    (hp : IsOptPercent optP p) (hw : IsWsRun w) :
    (if optP then skipPercent (p ++ (w ++ [')']))
      else (p ++ (w ++ [')']))) = w ++ [')'] := by
  rcases hp with rfl | ⟨rfl, rfl⟩
  · simp only [List.nil_append]
    cases optP with
    | false => rfl
    | true => simpa using skipPercent_ws_rpar w hw
  · simp [skipPercent]

theorem funcMatch_complete {tag : List Char} {optP : Bool} {cs : List Char}
    {v1 v2 v3 : ℕ} (hm : MatchesFuncGrammar tag optP cs v1 v2 v3) :
    funcMatch? tag optP cs = some (v1, v2, v3) := by
  obtain ⟨t, w0, d1, w1, w2, d2, p2, w3, w4, d3, p3, w5, hcs, htag, hw0, hd1,
    hw1, hw2, hd2, hp2, hw3, hw4, hd3, hp3, hw5, he1, he2, he3⟩ := hm
  subst hcs he1 he2 he3
  rw [← htag]
  simp only [funcMatch?, List.append_assoc, Option.bind_eq_bind]
  rw [expectTagCI_append]
  simp only [Option.some_bind]
  rw [expectChar_cons]
  simp only [Option.some_bind]
  rw [dropWhile_ws_digits _ _ _ hw0 hd1,
    digits13_complete hd1 (head_not_digit_ws_comma _ _ hw1)]
  simp only [Option.some_bind]
  rw [dropWhile_ws_comma _ _ hw1, expectChar_cons]
  simp only [Option.some_bind]
  rw [dropWhile_ws_digits _ _ _ hw2 hd2,
    digits13_complete hd2 (head_not_digit_pct_comma _ _ _ hp2 hw3)]
  simp only [Option.some_bind]
  rw [skip_opt_pct_comma _ _ _ hp2 hw3, dropWhile_ws_comma _ _ hw3, expectChar_cons]
  simp only [Option.some_bind]
  rw [dropWhile_ws_digits _ _ _ hw4 hd3,
    digits13_complete hd3 (head_not_digit_pct_rpar _ _ hp3 hw5)]
  simp only [Option.some_bind]
  rw [skip_opt_pct_rpar _ _ hp3 hw5, dropWhile_ws_rpar _ hw5, expectChar_cons]
  simp only [Option.some_bind]
  rfl

theorem wsRun_takeWhile (l : List Char) : IsWsRun (l.takeWhile isWs) :=
  fun _ hc => List.mem_takeWhile_imp hc

theorem exists_optPercent (optP : Bool) (cs : List Char) :
    ∃ p, cs = p ++ (if optP then skipPercent cs else cs) ∧
      IsOptPercent optP p := by
  cases optP with
  | false => exact ⟨[], by simp, Or.inl rfl⟩
  | true =>
    obtain ⟨p, hp1, hp2⟩ := skipPercent_split cs
    refine ⟨p, by simpa using hp1, ?_⟩
    rcases hp2 with rfl | rfl
    · exact Or.inl rfl
    · exact Or.inr ⟨rfl, rfl⟩

theorem funcMatch_sound {tag : List Char} {optP : Bool} {cs : List Char}
    {v1 v2 v3 : ℕ} (h : funcMatch? tag optP cs = some (v1, v2, v3)) :
    MatchesFuncGrammar tag optP cs v1 v2 v3 := by
  simp only [funcMatch?, Option.bind_eq_bind] at h
  cases h1 : expectTagCI tag cs with
  | none => rw [h1] at h; exact absurd h (by simp)
  | some cs1 =>
  rw [h1] at h
  simp only [Option.some_bind] at h
  cases h2 : expectChar '(' cs1 with
  | none => rw [h2] at h; exact absurd h (by simp)
  | some cs2 =>
  rw [h2] at h
  simp only [Option.some_bind] at h
  cases h3 : digits13? (cs2.dropWhile isWs) with
  | none => rw [h3] at h; exact absurd h (by simp)
  | some pr1 =>
  obtain ⟨n1, cs3⟩ := pr1
  rw [h3] at h
  simp only [Option.some_bind] at h
  cases h4 : expectChar ',' (cs3.dropWhile isWs) with
  | none => rw [h4] at h; exact absurd h (by simp)
  | some cs4 =>
  rw [h4] at h
  simp only [Option.some_bind] at h
  cases h5 : digits13? (cs4.dropWhile isWs) with
  | none => rw [h5] at h; exact absurd h (by simp)
  | some pr2 =>
  obtain ⟨n2, cs5⟩ := pr2
  rw [h5] at h
  simp only [Option.some_bind] at h
  cases h6 : expectChar ','
      ((if optP then skipPercent cs5 else cs5).dropWhile isWs) with
  | none => rw [h6] at h; exact absurd h (by simp)
  | some cs6 =>
  rw [h6] at h
  simp only [Option.some_bind] at h
  cases h7 : digits13? (cs6.dropWhile isWs) with
  | none => rw [h7] at h; exact absurd h (by simp)
  | some pr3 =>
  obtain ⟨n3, cs7⟩ := pr3
  rw [h7] at h
  simp only [Option.some_bind] at h
  cases h8 : expectChar ')'
      ((if optP then skipPercent cs7 else cs7).dropWhile isWs) with
  | none => rw [h8] at h; exact absurd h (by simp)
  | some cs8 =>
  rw [h8] at h
  simp only [Option.some_bind] at h
  split_ifs at h with hend
  rw [Option.some_inj, Prod.mk.injEq, Prod.mk.injEq] at h
  obtain ⟨hv1, hv2, hv3⟩ := h
  subst hv1 hv2 hv3 hend
  -- reconstruct the decomposition
  obtain ⟨t, hcs, htag⟩ := expectTagCI_some h1
  have hcs1 : cs1 = '(' :: cs2 := expectChar_some h2
  have hw0split : cs2 = cs2.takeWhile isWs ++ cs2.dropWhile isWs :=
    (List.takeWhile_append_dropWhile isWs cs2).symm
  obtain ⟨d1, hsplit1, hd1, hval1⟩ := digits13_some h3
  have hw1split : cs3 = cs3.takeWhile isWs ++ cs3.dropWhile isWs :=
    (List.takeWhile_append_dropWhile isWs cs3).symm
  have hcomma1 : cs3.dropWhile isWs = ',' :: cs4 := expectChar_some h4
  have hw2split : cs4 = cs4.takeWhile isWs ++ cs4.dropWhile isWs :=
    (List.takeWhile_append_dropWhile isWs cs4).symm
  obtain ⟨d2, hsplit2, hd2, hval2⟩ := digits13_some h5
  obtain ⟨p2, hp2split, hp2⟩ := exists_optPercent optP cs5
  have hw3split : (if optP then skipPercent cs5 else cs5) =
      (if optP then skipPercent cs5 else cs5).takeWhile isWs ++
      (if optP then skipPercent cs5 else cs5).dropWhile isWs :=
    (List.takeWhile_append_dropWhile isWs _).symm
  have hcomma2 : (if optP then skipPercent cs5 else cs5).dropWhile isWs =
      ',' :: cs6 := expectChar_some h6
  have hw4split : cs6 = cs6.takeWhile isWs ++ cs6.dropWhile isWs :=
    (List.takeWhile_append_dropWhile isWs cs6).symm
  obtain ⟨d3, hsplit3, hd3, hval3⟩ := digits13_some h7
  obtain ⟨p3, hp3split, hp3⟩ := exists_optPercent optP cs7
  have hw5split : (if optP then skipPercent cs7 else cs7) =
      (if optP then skipPercent cs7 else cs7).takeWhile isWs ++
      (if optP then skipPercent cs7 else cs7).dropWhile isWs :=
    (List.takeWhile_append_dropWhile isWs _).symm
  have hrpar : (if optP then skipPercent cs7 else cs7).dropWhile isWs =
      ')' :: [] := expectChar_some h8
  refine ⟨t, cs2.takeWhile isWs, d1, cs3.takeWhile isWs,
    cs4.takeWhile isWs, d2, p2,
    (if optP then skipPercent cs5 else cs5).takeWhile isWs,
    cs6.takeWhile isWs, d3, p3,
    (if optP then skipPercent cs7 else cs7).takeWhile isWs,
    ?_, htag, wsRun_takeWhile _, hd1, wsRun_takeWhile _, wsRun_takeWhile _,
    hd2, hp2, wsRun_takeWhile _, wsRun_takeWhile _, hd3, hp3,
    wsRun_takeWhile _, hval1, hval2, hval3⟩
  conv_lhs => rw [hcs, hcs1, hw0split, hsplit1, hw1split, hcomma1, hw2split,
    hsplit2, hp2split, hw3split, hcomma2, hw4split, hsplit3, hp3split,
    hw5split, hrpar]
  simp [List.append_assoc]

theorem hexBody_cons_ne {c : Char} {rest : List Char} (hc : c ≠ '#') :
    hexBody (c :: rest) = c :: rest := by
  simp only [hexBody]
  split
  · next r heq =>
    exfalso
    apply hc
    injection heq
  · rfl

theorem hexMatch_sound {cs body : List Char} (h : hexMatch? cs = some body) :
    MatchesHexGrammar cs := by
  cases cs with
  | nil => simp [hexMatch?, hexBody] at h
  | cons c rest =>
    by_cases hc : c = '#'
    · subst hc
      simp only [hexMatch?, hexBody] at h
      split_ifs at h with hcond
      exact ⟨rest, Or.inl rfl, hcond.1, List.all_eq_true.mp hcond.2⟩
    · simp only [hexMatch?, hexBody_cons_ne hc] at h
      split_ifs at h with hcond
      exact ⟨c :: rest, Or.inr rfl, hcond.1, List.all_eq_true.mp hcond.2⟩

theorem hexMatch_complete {cs : List Char} (hm : MatchesHexGrammar cs) :
    (hexMatch? cs).isSome = true := by
  obtain ⟨body, hsh, hlen, hall⟩ := hm
  rcases hsh with rfl | rfl
  · simp only [hexMatch?, hexBody]
    rw [if_pos ⟨hlen, List.all_eq_true.mpr hall⟩]
    rfl
  · cases cs with
    | nil => rcases hlen with h | h <;> simp at h
    | cons c rest =>
      have hc : c ≠ '#' := by
        intro hceq
        have h' := hall c (by simp)
        rw [hceq] at h'
        exact absurd h' (by decide)
      simp only [hexMatch?, hexBody_cons_ne hc]
      rw [if_pos ⟨hlen, List.all_eq_true.mpr hall⟩]
      rfl

theorem hexMatch_none_of_lparen {cs : List Char} (h : '(' ∈ cs) :
    hexMatch? cs = none := by
  by_contra hne
  obtain ⟨body, hb⟩ := Option.ne_none_iff_exists'.mp hne
  obtain ⟨bd, hsh, hbd⟩ := hexMatch_sound hb
  have hmem : '(' ∈ bd := by
    rcases hsh with rfl | rfl
    · rcases List.mem_cons.mp h with h' | h'
      · exact absurd h' (by decide)
      · exact h'
    · exact h
  exact absurd (hbd.2 '(' hmem) (by decide)

theorem grammar_mem_lparen {tag : List Char} {optP : Bool} {cs : List Char}
    {v1 v2 v3 : ℕ} (hm : MatchesFuncGrammar tag optP cs v1 v2 v3) :
    '(' ∈ cs := by
  obtain ⟨t, w0, d1, w1, w2, d2, p2, w3, w4, d3, p3, w5, hcs, -⟩ := hm
  subst hcs
  simp

theorem funcMatch_rgb_none_of_hsl {cs : List Char} {v1 v2 v3 : ℕ}
    (hm : MatchesFuncGrammar ['h', 's', 'l'] true cs v1 v2 v3) :
    funcMatch? ['r', 'g', 'b'] false cs = none := by
  obtain ⟨t, w0, d1, w1, w2, d2, p2, w3, w4, d3, p3, w5, hcs, htag, -⟩ := hm
  subst hcs
  cases t with
  | nil => simp at htag
  | cons t0 ts =>
    simp only [List.map_cons, List.cons.injEq] at htag
    obtain ⟨ht0, -⟩ := htag
    simp only [funcMatch?, Option.bind_eq_bind, List.cons_append, expectTagCI]
    rw [if_neg (by rw [ht0]; decide)]
    rfl

theorem parseColor_error_cases (input : String) :
    (∃ e, parseColor input = .error e) ↔
      hexMatch? (trimList input.toList) = none ∧
      funcMatch? ['r', 'g', 'b'] false (trimList input.toList) = none ∧
      funcMatch? ['h', 's', 'l'] true (trimList input.toList) = none := by
  simp only [parseColor]
  cases h1 : hexMatch? (trimList input.toList) with
  | some body => simp
  | none =>
    cases h2 : funcMatch? ['r', 'g', 'b'] false (trimList input.toList) with
    | some v =>
      obtain ⟨a, b, c⟩ := v
      simp
    | none =>
      cases h3 : funcMatch? ['h', 's', 'l'] true (trimList input.toList) with
      | some v =>
        obtain ⟨a, b, c⟩ := v
        simp
      | none => simp

/-- **C4.** `parseColor` throws exactly when the trimmed input matches
none of the three grammars; the error message enumerates the accepted
formats; negative numbers, alpha channels and named colors all fail. -/
theorem parseColor_error_iff :
    (∀ input : String, (∃ e, parseColor input = .error e) ↔
      ¬(MatchesHexGrammar (trimList input.toList) ∨
        (∃ v1 v2 v3, MatchesFuncGrammar ['r', 'g', 'b'] false
          (trimList input.toList) v1 v2 v3) ∨
        (∃ v1 v2 v3, MatchesFuncGrammar ['h', 's', 'l'] true
          (trimList input.toList) v1 v2 v3))) ∧
    (∀ input e, parseColor input = .error e →
      e = "Cannot parse \"" ++ input ++
        "\". Accepted formats: #6C5CE7, 6C5CE7, #6CE, rgb(108,92,231), hsl(249,75%,63%)") ∧
    (∃ e, parseColor "rgb(-1, 0, 0)" = .error e) ∧
    (∃ e, parseColor "rgba(0, 0, 0, 0.5)" = .error e) ∧
    (∃ e, parseColor "#aabbccdd" = .error e) ∧
    (∃ e, parseColor "red" = .error e) := by
  refine ⟨?_, ?_, ⟨parseErrorMsg "rgb(-1, 0, 0)", by decide⟩,
    ⟨parseErrorMsg "rgba(0, 0, 0, 0.5)", by decide⟩,
    ⟨parseErrorMsg "#aabbccdd", by decide⟩, ⟨parseErrorMsg "red", by decide⟩⟩
  · intro input
    rw [parseColor_error_cases]
    constructor
    · rintro ⟨hh, hr, hl⟩ (hhex | ⟨v1, v2, v3, hrgb⟩ | ⟨v1, v2, v3, hhsl⟩)
      · have := hexMatch_complete hhex
        rw [hh] at this
        exact absurd this (by decide)
      · rw [funcMatch_complete hrgb] at hr
        exact Option.noConfusion hr
      · rw [funcMatch_complete hhsl] at hl
        exact Option.noConfusion hl
    · intro hn
      refine ⟨?_, ?_, ?_⟩
      · cases hcase : hexMatch? (trimList input.toList) with
        | none => rfl
        | some b => exact absurd (Or.inl (hexMatch_sound hcase)) hn
      · cases hcase : funcMatch? ['r', 'g', 'b'] false (trimList input.toList) with
        | none => rfl
        | some v =>
          obtain ⟨a, b, c⟩ := v
          exact absurd (Or.inr (Or.inl ⟨a, b, c, funcMatch_sound hcase⟩)) hn
      · cases hcase : funcMatch? ['h', 's', 'l'] true (trimList input.toList) with
        | none => rfl
        | some v =>
          obtain ⟨a, b, c⟩ := v
          exact absurd (Or.inr (Or.inr ⟨a, b, c, funcMatch_sound hcase⟩)) hn
  · intro input e h
    simp only [parseColor] at h
    cases h1 : hexMatch? (trimList input.toList) with
    | some body =>
      rw [h1] at h
      exact Except.noConfusion h
    | none =>
      rw [h1] at h
      cases h2 : funcMatch? ['r', 'g', 'b'] false (trimList input.toList) with
      | some v =>
        obtain ⟨a, b, c⟩ := v
        rw [h2] at h
        exact Except.noConfusion h
      | none =>
        rw [h2] at h
        cases h3 : funcMatch? ['h', 's', 'l'] true (trimList input.toList) with
        | some v =>
          obtain ⟨a, b, c⟩ := v
          rw [h3] at h
          exact Except.noConfusion h
        | none =>
          rw [h3] at h
          injection h with h
          exact h.symm

/-- **C4 witness.** `"red"` fails, so by the equivalence it matches none
of the three grammars. -/
theorem parseColor_error_iff_witness :
    ¬(MatchesHexGrammar (trimList "red".toList) ∨
      (∃ v1 v2 v3, MatchesFuncGrammar ['r', 'g', 'b'] false
        (trimList "red".toList) v1 v2 v3) ∨
      (∃ v1 v2 v3, MatchesFuncGrammar ['h', 's', 'l'] true
        (trimList "red".toList) v1 v2 v3)) :=
  (parseColor_error_iff.1 "red").mp ⟨parseErrorMsg "red", by decide⟩

/-- **C7.** Any input matching the `rgb()`/`hsl()` grammar parses
successfully, with each out-of-range value clamped (channels at 255, hue
at 360, saturation and lightness at 100). -/
theorem parseColor_clamps :
    (∀ (input : String) (v1 v2 v3 : ℕ),
      MatchesFuncGrammar ['r', 'g', 'b'] false (trimList input.toList) v1 v2 v3 →
      parseColor input = .ok (rgbToHex
        ⟨min 255 (v1 : ℤ), min 255 (v2 : ℤ), min 255 (v3 : ℤ)⟩)) ∧
    (∀ (input : String) (v1 v2 v3 : ℕ),
      MatchesFuncGrammar ['h', 's', 'l'] true (trimList input.toList) v1 v2 v3 →
      parseColor input = .ok (hslToHex
        ⟨min 360 (v1 : ℤ), min 100 (v2 : ℤ), min 100 (v3 : ℤ)⟩)) := by
  constructor
  · intro input v1 v2 v3 hm
    simp only [parseColor]
    rw [hexMatch_none_of_lparen (grammar_mem_lparen hm), funcMatch_complete hm]
  · intro input v1 v2 v3 hm
    simp only [parseColor]
    rw [hexMatch_none_of_lparen (grammar_mem_lparen hm),
      funcMatch_rgb_none_of_hsl hm, funcMatch_complete hm]

/-- **C7 witness.** `rgb(999, 0, 300)` parses as the clamped
`rgb(255, 0, 255)`. -/
theorem parseColor_clamps_witness :
    parseColor "rgb(999, 0, 300)" = .ok (rgbToHex
      ⟨min 255 (999 : ℤ), min 255 (0 : ℤ), min 255 (300 : ℤ)⟩) :=
  parseColor_clamps.1 "rgb(999, 0, 300)" 999 0 300
    ⟨['r', 'g', 'b'], [], ['9', '9', '9'], [], [' '], ['0'], [], [], [' '],
      ['3', '0', '0'], [], [],
      by simp only [IsWsRun, IsDigits13, IsOptPercent]; decide⟩

/-! ## Text color for a background (claim C1)

The code picks white over black by a strict `>` on the two contrast
ratios.  The claim's tie clause is settled by proving that a tie is
impossible: a tie forces the luminance to satisfy
`(20L + 1)^2 = 21`, i.e. `20L + 1 = sqrt 21`, while `20L + 1` always
lies in a field extension of `ℚ` of odd degree (each non-rational
`linearize` value is a real fifth root of a rational), which cannot
contain the degree-2 algebraic number `sqrt 21`. -/

open Polynomial IntermediateField

theorem irrational_sqrt_21 : Irrational (Real.sqrt 21) := by
  apply irrational_nrt_of_notint_nrt 2 21
  · push_cast
    exact Real.sq_sqrt (by norm_num)
  · rintro ⟨y, hy⟩
    have h4 : (4 : ℝ) < Real.sqrt 21 := by
      rw [show (4 : ℝ) = Real.sqrt 16 by
        rw [show (16 : ℝ) = 4 ^ 2 by norm_num, Real.sqrt_sq (by norm_num)]]
      exact Real.sqrt_lt_sqrt (by norm_num) (by norm_num)
    have h5 : Real.sqrt 21 < 5 := by
      rw [show (5 : ℝ) = Real.sqrt 25 by
        rw [show (25 : ℝ) = 5 ^ 2 by norm_num, Real.sqrt_sq (by norm_num)]]
      exact Real.sqrt_lt_sqrt (by norm_num) (by norm_num)
    rw [hy] at h4 h5
    have h4' : (4 : ℤ) < y := by exact_mod_cast h4
    have h5' : y < 5 := by exact_mod_cast h5
    omega
  · norm_num

theorem adjoin_pow5_step (K : IntermediateField ℚ ℝ) [FiniteDimensional ℚ K]
    (hodd : Odd (Module.finrank ℚ K)) (α : ℝ) (t : ℚ) (ht : α ^ 5 = (t : ℝ)) :
    ∃ K' : IntermediateField ℚ ℝ, K ≤ K' ∧ α ∈ K' ∧ FiniteDimensional ℚ K' ∧
      Odd (Module.finrank ℚ K') := by
  have ha : algebraMap K ℝ (t : K) = α ^ 5 := by
    rw [ht, IntermediateField.algebraMap_apply]
    push_cast
    ring
  by_cases hb : ∃ b : K, b ^ 5 = (t : K)
  · obtain ⟨b, hb5⟩ := hb
    have hbr : ((b : ℝ)) ^ 5 = α ^ 5 := by
      have h := congrArg (algebraMap K ℝ) hb5
      rw [map_pow] at h
      rw [← ha, ← h, IntermediateField.algebraMap_apply]
    have hba : (b : ℝ) = α := by
      have hmono : StrictMono fun x : ℝ => x ^ 5 := Odd.strictMono_pow (by decide)
      exact hmono.injective hbr
    exact ⟨K, le_refl K, hba ▸ b.2, inferInstance, hodd⟩
  · push_neg at hb
    have hirr : Irreducible (X ^ 5 - C ((t : K))) :=
      X_pow_sub_C_irreducible_of_prime (by norm_num) hb
    have hroot : Polynomial.aeval α (X ^ 5 - C ((t : K))) = 0 := by
      simp [ha]
    have hmon := Polynomial.monic_X_pow_sub_C ((t : K)) (by norm_num : (5 : ℕ) ≠ 0)
    have hint : IsIntegral K α := ⟨_, hmon, hroot⟩
    have hmin : minpoly K α = X ^ 5 - C ((t : K)) :=
      (minpoly.eq_of_irreducible_of_monic hirr hroot hmon).symm
    have hfd : FiniteDimensional K (IntermediateField.adjoin K {α}) :=
      IntermediateField.adjoin.finiteDimensional hint
    have hdeg : Module.finrank K (IntermediateField.adjoin K {α}) = 5 := by
      rw [IntermediateField.adjoin.finrank hint, hmin, Polynomial.natDegree_X_pow_sub_C]
    refine ⟨(IntermediateField.adjoin K {α}).restrictScalars ℚ, ?_, ?_, ?_, ?_⟩
    · intro x hx
      have hmem : algebraMap K ℝ ⟨x, hx⟩ ∈ IntermediateField.adjoin K {α} :=
        (IntermediateField.adjoin K {α}).algebraMap_mem ⟨x, hx⟩
      rwa [IntermediateField.algebraMap_apply] at hmem
    · exact IntermediateField.mem_adjoin_simple_self K α
    · have hfdq : FiniteDimensional ℚ (IntermediateField.adjoin K {α}) :=
        FiniteDimensional.trans ℚ K (IntermediateField.adjoin K {α})
      exact hfdq
    · have hmul : Module.finrank ℚ K *
          Module.finrank K (IntermediateField.adjoin K {α}) =
          Module.finrank ℚ (IntermediateField.adjoin K {α}) :=
        Module.finrank_mul_finrank ℚ K (IntermediateField.adjoin K {α})
      show Odd (Module.finrank ℚ (IntermediateField.adjoin K {α}))
      rw [← hmul, hdeg]
      exact hodd.mul ⟨2, rfl⟩

set_option synthInstance.maxHeartbeats 1000000 in
set_option maxHeartbeats 2000000 in
theorem sqrt21_ne_comb (q0 qa qb qc ta tb tc : ℚ) (α β γ : ℝ)
    (ha : α ^ 5 = (ta : ℝ)) (hb : β ^ 5 = (tb : ℝ)) (hc : γ ^ 5 = (tc : ℝ)) :
    (q0 : ℝ) + qa * α + qb * β + qc * γ ≠ Real.sqrt 21 := by
  intro heq
  have h0 : Odd (Module.finrank ℚ (⊥ : IntermediateField ℚ ℝ)) := by
    rw [IntermediateField.finrank_bot]
    exact ⟨0, rfl⟩
  obtain ⟨K1, hK01, hα1, hfd1, hodd1⟩ := adjoin_pow5_step ⊥ h0 α ta ha
  haveI := hfd1
  obtain ⟨K2, hK12, hβ2, hfd2, hodd2⟩ := adjoin_pow5_step K1 hodd1 β tb hb
  haveI := hfd2
  obtain ⟨K3, hK23, hγ3, hfd3, hodd3⟩ := adjoin_pow5_step K2 hodd2 γ tc hc
  haveI := hfd3
  have hα3 : α ∈ K3 := hK23 (hK12 hα1)
  have hβ3 : β ∈ K3 := hK23 hβ2
  have hq : ∀ q : ℚ, ((q : ℝ)) ∈ K3 := fun q => SubfieldClass.ratCast_mem K3 q
  have hs : Real.sqrt 21 ∈ K3 := by
    rw [← heq]
    exact add_mem (add_mem (add_mem (hq q0) (mul_mem (hq qa) hα3))
      (mul_mem (hq qb) hβ3)) (mul_mem (hq qc) hγ3)
  have hirr2 : Irreducible (X ^ 2 - C (21 : ℚ)) := by
    apply X_pow_sub_C_irreducible_of_prime Nat.prime_two
    intro b hb2
    apply irrational_sqrt_21
    have habs : ((|b| : ℚ) : ℝ) ^ 2 = 21 := by
      push_cast
      rw [← abs_pow]
      rw [show ((b : ℝ)) ^ 2 = ((21 : ℝ)) by exact_mod_cast congrArg Rat.cast hb2]
      norm_num
    refine ⟨|b|, ?_⟩
    rw [show ((21 : ℝ)) = ((|b| : ℚ) : ℝ) ^ 2 from habs.symm,
      Real.sqrt_sq (by positivity)]
  have hroot2 : (aeval (Real.sqrt 21)) (X ^ 2 - C (21 : ℚ)) = 0 := by
    simp only [map_sub, aeval_X_pow, aeval_C]
    rw [Real.sq_sqrt (by norm_num : (0 : ℝ) ≤ 21)]
    norm_num
  have hmin2 : minpoly ℚ (Real.sqrt 21) = X ^ 2 - C (21 : ℚ) :=
    (minpoly.eq_of_irreducible_of_monic hirr2 hroot2
      (monic_X_pow_sub_C _ (by norm_num))).symm
  set x : K3 := ⟨Real.sqrt 21, hs⟩ with hxdef
  have hxmap : algebraMap K3 ℝ x = Real.sqrt 21 := rfl
  have hminx : minpoly ℚ x = X ^ 2 - C (21 : ℚ) := by
    have hinj : Function.Injective (algebraMap K3 ℝ) := (algebraMap K3 ℝ).injective
    have h : minpoly ℚ (algebraMap K3 ℝ x) = minpoly ℚ x :=
      minpoly.algebraMap_eq hinj x
    rw [hxmap, hmin2] at h
    exact h.symm
  have hintx : IsIntegral ℚ x := IsIntegral.of_finite ℚ x
  have hfr := IntermediateField.adjoin.finrank hintx
  rw [hminx, natDegree_X_pow_sub_C] at hfr
  have hmul := Module.finrank_mul_finrank ℚ (↥(ℚ⟮x⟯)) K3
  have hdvd : (2 : ℕ) ∣ Module.finrank ℚ K3 :=
    ⟨Module.finrank (↥(ℚ⟮x⟯)) K3, by rw [← hmul, hfr]⟩
  rcases hodd3 with ⟨k, hk⟩
  rcases hdvd with ⟨m, hm⟩
  omega

theorem linearize_decomp (c : ℤ) :
    ∃ (q qa t : ℚ) (α : ℝ), α ^ 5 = (t : ℝ) ∧ linearize c = q + qa * α := by
  simp only [linearize]
  split_ifs with h
  · refine ⟨(c : ℚ) / 255 / 12.92, 0, 0, 0, by norm_num, ?_⟩
    push_cast
    ring
  · push_neg at h
    have hx0 : (0 : ℝ) ≤ ((c : ℝ) / 255 + 0.055) / 1.055 := by
      have hgt : (0.03928 : ℝ) < (c : ℝ) / 255 := h
      have h55 : (0 : ℝ) < 0.055 := by norm_num
      positivity
    refine ⟨0, 1, (((c : ℚ) / 255 + 0.055) / 1.055) ^ 12,
      (((c : ℝ) / 255 + 0.055) / 1.055) ^ (2.4 : ℝ), ?_, by ring⟩
    rw [← Real.rpow_natCast ((((c : ℝ) / 255 + 0.055) / 1.055) ^ (2.4 : ℝ)) 5,
      ← Real.rpow_mul hx0]
    rw [show ((2.4 : ℝ) * (5 : ℕ)) = ((12 : ℕ) : ℝ) by norm_num]
    rw [Real.rpow_natCast]
    push_cast
    ring

theorem relativeLuminance_decomp (rgb : RGBColor) :
    ∃ (q0 qa qb qc ta tb tc : ℚ) (α β γ : ℝ),
      α ^ 5 = (ta : ℝ) ∧ β ^ 5 = (tb : ℝ) ∧ γ ^ 5 = (tc : ℝ) ∧
      relativeLuminance rgb = q0 + qa * α + qb * β + qc * γ := by
  obtain ⟨qr, ar, tr, α, htr, hr⟩ := linearize_decomp rgb.r
  obtain ⟨qg, ag, tg, β, htg, hg⟩ := linearize_decomp rgb.g
  obtain ⟨qb, ab, tb, γ, htb, hb⟩ := linearize_decomp rgb.b
  refine ⟨0.2126 * qr + 0.7152 * qg + 0.0722 * qb,
    0.2126 * ar, 0.7152 * ag, 0.0722 * ab, tr, tg, tb, α, β, γ, htr, htg, htb, ?_⟩
  rw [relativeLuminance, hr, hg, hb]
  push_cast
  ring

theorem relativeLuminance_white : relativeLuminance ⟨255, 255, 255⟩ = 1 := by
  have hlin : linearize 255 = 1 := by
    simp only [linearize]
    rw [if_neg (by norm_num)]
    rw [show (((255 : ℤ) : ℝ) / 255 + 0.055) / 1.055 = 1 by norm_num]
    exact Real.one_rpow _
  rw [relativeLuminance]
  show 0.2126 * linearize 255 + 0.7152 * linearize 255 + 0.0722 * linearize 255 = 1
  rw [hlin]
  norm_num

theorem relativeLuminance_black : relativeLuminance ⟨0, 0, 0⟩ = 0 := by
  have hlin : linearize 0 = 0 := by
    simp only [linearize]
    rw [if_pos (by norm_num)]
    norm_num
  rw [relativeLuminance]
  show 0.2126 * linearize 0 + 0.7152 * linearize 0 + 0.0722 * linearize 0 = 0
  rw [hlin]
  norm_num

theorem contrast_no_tie (rgb : RGBColor) (hr0 : 0 ≤ rgb.r)
    (hr1 : rgb.r ≤ 255) (hg0 : 0 ≤ rgb.g) (hg1 : rgb.g ≤ 255)
    (hb0 : 0 ≤ rgb.b) (hb1 : rgb.b ≤ 255) :
    contrastRatio rgb ⟨255, 255, 255⟩ ≠ contrastRatio rgb ⟨0, 0, 0⟩ := by
  intro htie
  obtain ⟨hL0, hL1⟩ := relativeLuminance_mem rgb hr0 hr1 hg0 hg1 hb0 hb1
  have hcw : contrastRatio rgb ⟨255, 255, 255⟩ =
      (1 + 0.05) / (relativeLuminance rgb + 0.05) := by
    simp only [contrastRatio, relativeLuminance_white]
    rw [max_eq_right hL1, min_eq_left hL1]
  have hcb : contrastRatio rgb ⟨0, 0, 0⟩ =
      (relativeLuminance rgb + 0.05) / (0 + 0.05) := by
    simp only [contrastRatio, relativeLuminance_black]
    rw [max_eq_left hL0, min_eq_right hL0]
  rw [hcw, hcb] at htie
  set L := relativeLuminance rgb with hLdef
  have hpos : (0 : ℝ) < L + 0.05 := by
    have h05 : (0 : ℝ) < 0.05 := by norm_num
    linarith
  rw [div_eq_div_iff hpos.ne' (by norm_num : (0 : ℝ) + 0.05 ≠ 0)] at htie
  have hsq : (20 * L + 1) ^ 2 = 21 := by nlinarith [htie]
  have hsqrt : Real.sqrt 21 = 20 * L + 1 := by
    rw [← hsq, Real.sqrt_sq (by linarith)]
  obtain ⟨q0, qa, qb, qc, ta, tb, tc, α, β, γ, hta, htb, htc, hdec⟩ :=
    relativeLuminance_decomp rgb
  apply sqrt21_ne_comb (20 * q0 + 1) (20 * qa) (20 * qb) (20 * qc) ta tb tc
    α β γ hta htb htc
  push_cast
  rw [hsqrt, hLdef, hdec]
  ring

/-- **C1.** For every in-range RGB color, `textColorForBackground` of
its serialized hex returns pure white when white's contrast ratio
against the color is at least black's (so in particular it would on an
exact tie, which `contrast_no_tie` shows never happens), and pure black
when black's contrast ratio is strictly higher. -/
theorem textColorForBackground_choice (r g b : ℤ)
    (hr0 : 0 ≤ r) (hr1 : r ≤ 255) (hg0 : 0 ≤ g) (hg1 : g ≤ 255)
    (hb0 : 0 ≤ b) (hb1 : b ≤ 255) :
    (contrastRatio ⟨r, g, b⟩ ⟨255, 255, 255⟩ ≥ contrastRatio ⟨r, g, b⟩ ⟨0, 0, 0⟩ →
      textColorForBackground (rgbToHex ⟨r, g, b⟩) = some "#ffffff") ∧
    (contrastRatio ⟨r, g, b⟩ ⟨0, 0, 0⟩ > contrastRatio ⟨r, g, b⟩ ⟨255, 255, 255⟩ →
      textColorForBackground (rgbToHex ⟨r, g, b⟩) = some "#000000") := by
  have hrt : hexToRgb (rgbToHex ⟨r, g, b⟩) = some ⟨r, g, b⟩ :=
    hexToRgb_rgbToHex_id r g b hr0 hr1 hg0 hg1 hb0 hb1
  constructor
  · intro hge
    have hne := contrast_no_tie ⟨r, g, b⟩ hr0 hr1 hg0 hg1 hb0 hb1
    have hgt : contrastRatio ⟨r, g, b⟩ ⟨255, 255, 255⟩ >
        contrastRatio ⟨r, g, b⟩ ⟨0, 0, 0⟩ :=
      lt_of_le_of_ne hge (Ne.symm hne)
    simp only [textColorForBackground, hrt, Option.map_some']
    rw [if_pos hgt]
  · intro hlt
    have hngt : ¬(contrastRatio ⟨r, g, b⟩ ⟨255, 255, 255⟩ >
        contrastRatio ⟨r, g, b⟩ ⟨0, 0, 0⟩) := not_lt.mpr (le_of_lt hlt)
    simp only [textColorForBackground, hrt, Option.map_some']
    rw [if_neg hngt]

/-- **C1 witness.** A black background gets white text. -/
theorem textColorForBackground_choice_witness :
    textColorForBackground (rgbToHex ⟨0, 0, 0⟩) = some "#ffffff" :=
  (textColorForBackground_choice 0 0 0 (by decide) (by decide) (by decide)
    (by decide) (by decide) (by decide)).1 (by
      simp only [contrastRatio, relativeLuminance_white, relativeLuminance_black]
      norm_num [max_def, min_def])

end ColorsHelp
